import Mathlib

/-!
# String-expression interpreter (Project2.cpp, SymbolTable.hpp)

A shallow embedding of the interpreter: strings are character lists, the
lexer is a cursor over a token list, the globals (`variables`, `std::cout`)
are threaded as explicit state, and `Error(...)` (print and `exit(1)`) is a
result that carries the error and the state the run stopped in.
-/

namespace Project2

/-! ## Strings -/

/-- A `std::string`: its sequence of characters. -/
abbrev Str := List Char

/-- The call `std::string::find(pat)` from position 0: the least index at which `pat`
occurs in `s`, `none` standing for `npos`. The empty pattern is found at 0. -/
def find (s pat : Str) : Option Nat :=
  match s with
  | [] => if pat.isPrefixOf [] then some 0 else none
  | c :: t => if pat.isPrefixOf (c :: t) then some 0 else (find t pat).map (· + 1)

/-- The call `s.substr(pos, n)`; every call in the program has `pos ≤ s.length`. -/
def substr (s : Str) (pos n : Nat) : Str := (s.drop pos).take n

/-- The call `s.substr(pos)`; every call in the program has `pos ≤ s.length`. -/
def substrFrom (s : Str) (pos : Nat) : Str := s.drop pos

/-- The character `str[0]`, read only when the string is non-empty. -/
def front (s : Str) : Char := s.headD ' '

/-- The character `str.back()`, read only when the string is non-empty. -/
def back (s : Str) : Char := s.getLastD ' '

/-- Project2.cpp lines 15-20. -/
def stripQuotes (str : Str) : Str :=
  if str.length ≥ 2 ∧ ((front str = '"' ∧ back str = '"') ∨ (front str = '\'' ∧ back str = '\'')) then
    substr str 1 (str.length - 2)
  else
    str

/-! ## Tokens and the lexer (lexer.hpp is generated and not part of the sources) -/

/-- Modelled from the spec: the token kinds of the missing lexer.hpp
(identifier, string literal, keyword, operator, newline, end). -/
inductive TokenKind
  | ID_IDENTIFIER
  | ID_STRING
  | ID_KEYWORD
  | ID_OPERATOR
  | ID_NEWLINE
  | ID_EOF
  deriving DecidableEq, Repr

/-- Modelled from the spec: a token of the missing lexer.hpp, with kind,
lexeme and source line. -/
structure Token where
  id : TokenKind
  lexeme : Str
  line_id : Nat
  deriving DecidableEq, Repr

/-- Modelled from the spec: the token of the missing lexer.hpp that is handed
out once the input is used up. -/
def eofToken : Token := ⟨.ID_EOF, [], 0⟩

/-- Modelled from the spec: the token source of the missing lexer.hpp, a
cursor over the token sequence, held as the tokens not consumed yet. -/
structure Lexer where
  tokens : List Token
  deriving DecidableEq, Repr

/-- Modelled from the spec: `hasNext()` of the token source, `Any()` of the
missing lexer.hpp. -/
def Lexer.Any (lexer : Lexer) : Bool := !lexer.tokens.isEmpty

/-- Modelled from the spec: `peek(offsetFromZero)` of the token source,
`Peek(skip)` of the missing lexer.hpp. -/
def Lexer.Peek (lexer : Lexer) (skip : Nat) : Token := lexer.tokens.getD skip eofToken

/-- Modelled from the spec: `consume()` of the token source without an
expected kind, `Use()` of the missing lexer.hpp: the next token and the
advanced cursor. -/
def Lexer.Use (lexer : Lexer) : Token × Lexer := (lexer.Peek 0, ⟨lexer.tokens.tail⟩)

/-! ## Errors and program state -/

/-- The fatal errors of the program, one constructor per message of an
`Error(line, ...)` call or of a direct `exit(1)`. `OutOfFuel` belongs to the
embedding only: it is what a loop would report if its iteration bound ran
out, and `evaluateExpression_ne_outOfFuel` and `interpret_ne_outOfFuel` show
that it never does. -/
inductive Err
  /-- Message "Unknown variable '...'". -/
  | UndefinedVariable (line : Nat) (name : Str)
  /-- Message "Unexpected token: ...". -/
  | UnexpectedToken (line : Nat) (lexeme : Str)
  /-- Message "Unexpected operator in expression: ...". -/
  | UnexpectedOperator (line : Nat) (op : Str)
  /-- Message "Unexpected keyword: ...". -/
  | UnexpectedKeyword (line : Nat) (lexeme : Str)
  /-- A `Use(expected_id)` that met another kind of token. -/
  | UnexpectedTokenKind (line : Nat) (expected : TokenKind) (lexeme : Str)
  /-- Message "Redeclaration of variable '...' (originally defined on line ...).". -/
  | DuplicateDeclaration (line : Nat) (name : Str) (def_line : Nat)
  /-- Message "Unsupported test case", written by `main` before `exit(1)`. -/
  | UnsupportedTestCase
  | OutOfFuel
  /-- Message "Format: ... [filename]", written by `main` before `exit(1)`. -/
  | Usage
  /-- Message "Cannot assign a value to '...'." of ASTNode.hpp, before `exit(1)`. -/
  | CannotAssign (line : Nat) (lexeme : Str)
  /-- Message "Unknown binary operator '...'." of ASTNode.hpp, before `exit(1)`. -/
  | UnknownBinaryOperator (lexeme : Str)
  /-- A failed `assert` of ASTNode.hpp. -/
  | AssertionFailed
  deriving DecidableEq, Repr

/-- A `std::map<std::string, β>` as an association list with distinct keys;
the program only looks keys up, so the order of the entries is not observable. -/
abbrev StrMap (β : Type) := List (Str × β)

/-- The call `m.find(k)`, `none` standing for `m.end()`. -/
def mapFind {β : Type} (m : StrMap β) (k : Str) : Option β :=
  match m with
  | [] => none
  | (k1, v) :: rest => if k1 = k then some v else mapFind rest k

/-- The access `m[k]` used as an lvalue and updated by `f`: the entry of `k` is created
with the default value `dflt` when it is missing, as `operator[]` does. -/
def mapUpdate {β : Type} (m : StrMap β) (k : Str) (dflt : β) (f : β → β) : StrMap β :=
  match m with
  | [] => [(k, f dflt)]
  | (k1, v) :: rest => if k1 = k then (k1, f v) :: rest else (k1, v) :: mapUpdate rest k dflt f

/-- The access `m[k]` used as an rvalue: the value read and the map afterwards. -/
def mapIndex {β : Type} (m : StrMap β) (k : Str) (dflt : β) : β × StrMap β :=
  ((mapFind m k).getD dflt, mapUpdate m k dflt id)

/-- The state of a run: the lexer, the global `variables` (Project2.cpp line 13)
and the lines written to `std::cout`. -/
structure St where
  lexer : Lexer
  vars : StrMap Str
  out : List Str
  deriving DecidableEq, Repr

/-- The outcome of a routine: a value and the state after it, or the error
that ended the run and the state it ended in. -/
inductive Res (α : Type)
  | ok (val : α) (st : St)
  | error (e : Err) (st : St)
  deriving DecidableEq, Repr

/-- Modelled from the spec: `consume(expectedKind)` of the token source,
`Use(expected_id)` of the missing lexer.hpp: fails with UnexpectedTokenKind
when the next token is of another kind. -/
def UseKind (st : St) (expected_id : TokenKind) : Res Token :=
  let token := st.lexer.Peek 0
  if token.id = expected_id then
    .ok token { st with lexer := st.lexer.Use.2 }
  else
    .error (.UnexpectedTokenKind token.line_id expected_id token.lexeme) st

/-! ## The expression evaluator (Project2.cpp lines 24-106) -/

/-- The operator lexemes that `evaluateTerm` names (lines 37-40). -/
def termBlocked : List Str :=
  [['!'], ['('], [')'], ['=', '='], ['!', '='], ['<'], ['<', '='], ['>'], ['>', '='], ['?']]

/-- Project2.cpp lines 24-46. -/
def evaluateTerm (st : St) : Res Str :=
  let token := st.lexer.Use.1
  let st := { st with lexer := st.lexer.Use.2 }
  if token.id = .ID_STRING then
    .ok (stripQuotes token.lexeme) st
  else if token.id = .ID_IDENTIFIER then
    if mapFind st.vars token.lexeme = none then
      .error (.UndefinedVariable token.line_id token.lexeme) st
    else
      let r := mapIndex st.vars token.lexeme []
      .ok r.1 { st with vars := r.2 }
  else if token.id = .ID_OPERATOR ∧ token.lexeme ∈ termBlocked then
    .error (.UnexpectedToken token.line_id token.lexeme) st
  else
    .error (.UnexpectedToken token.line_id token.lexeme) st

/-- Project2.cpp lines 58-70: the new `result` of the `/`-`%` loop once the
operator and the right operand are read. -/
def applyHighPrec (op result right : Str) : Str :=
  if op = ['/'] then
    match find result right with
    | some pos => substr result 0 pos
    | none => result
  else if op = ['%'] then
    match find result right with
    | some pos => substrFrom result (pos + right.length)
    | none => []
  else
    result

/-- Project2.cpp lines 52-74, the `while` loop of `evaluateHighPrec`, bounded
by `fuel` iterations. -/
def highPrecLoop : Nat → Str → St → Res Str
  | 0, _, st => .error .OutOfFuel st
  | fuel + 1, result, st =>
    if st.lexer.Any = true ∧ (st.lexer.Peek 0).id = .ID_OPERATOR then
      let op := (st.lexer.Peek 0).lexeme
      if op = ['/'] ∨ op = ['%'] then
        match evaluateTerm { st with lexer := st.lexer.Use.2 } with
        | .error e st1 => .error e st1
        | .ok right st1 => highPrecLoop fuel (applyHighPrec op result right) st1
      else
        .ok result st
    else
      .ok result st

/-- Project2.cpp lines 49-77. Every iteration of the loop consumes a token, so
one more iteration than there are tokens left is never used up. -/
def evaluateHighPrec (st : St) : Res Str :=
  match evaluateTerm st with
  | .error e st1 => .error e st1
  | .ok result st1 => highPrecLoop (st1.lexer.tokens.length + 1) result st1

/-- Project2.cpp lines 88-95: the new `result` of the `+`-`-` loop once the
operator and the right operand are read. -/
def applyLowPrec (op result right : Str) : Str :=
  if op = ['+'] then
    result ++ right
  else if op = ['-'] then
    match find result right with
    | some pos => substr result 0 pos ++ substrFrom result (pos + right.length)
    | none => result
  else
    result

/-- The operator lexemes that `evaluateExpression` rejects (lines 96-97). -/
def exprBlocked : List Str :=
  [['='], ['=', '='], ['!', '='], ['<'], ['<', '='], ['>'], ['>', '='], ['?'], ['!']]

/-- Project2.cpp lines 82-103, the `while` loop of `evaluateExpression`,
bounded by `fuel` iterations. -/
def expressionLoop : Nat → Str → St → Res Str
  | 0, _, st => .error .OutOfFuel st
  | fuel + 1, result, st =>
    if st.lexer.Any = true ∧ (st.lexer.Peek 0).id = .ID_OPERATOR then
      let op := (st.lexer.Peek 0).lexeme
      if op = ['+'] ∨ op = ['-'] then
        match evaluateHighPrec { st with lexer := st.lexer.Use.2 } with
        | .error e st1 => .error e st1
        | .ok right st1 => expressionLoop fuel (applyLowPrec op result right) st1
      else if op ∈ exprBlocked then
        .error (.UnexpectedOperator (st.lexer.Peek 0).line_id op) st
      else
        .ok result st
    else
      .ok result st

/-- Project2.cpp lines 79-106. -/
def evaluateExpression (st : St) : Res Str :=
  match evaluateHighPrec st with
  | .error e st1 => .error e st1
  | .ok result st1 => expressionLoop (st1.lexer.tokens.length + 1) result st1

/-! ## Statements and the top-level loop (Project2.cpp lines 108-199) -/

/-- Project2.cpp lines 108-114. -/
def handleVarStatement (st : St) : Res Unit :=
  match UseKind st .ID_KEYWORD with
  | .error e st1 => .error e st1
  | .ok _ st1 =>
    match UseKind st1 .ID_IDENTIFIER with
    | .error e st2 => .error e st2
    | .ok varName st2 =>
      match UseKind st2 .ID_OPERATOR with
      | .error e st3 => .error e st3
      | .ok _ st3 =>
        match evaluateExpression st3 with
        | .error e st4 => .error e st4
        | .ok value st4 =>
          .ok () { st4 with vars := mapUpdate st4.vars varName.lexeme [] (fun _ => value) }

/-- Project2.cpp lines 116-120. -/
def handlePrintStatement (st : St) : Res Unit :=
  match UseKind st .ID_KEYWORD with
  | .error e st1 => .error e st1
  | .ok _ st1 =>
    match evaluateExpression st1 with
    | .error e st2 => .error e st2
    | .ok value st2 => .ok () { st2 with out := st2.out ++ [value] }

/-- Project2.cpp lines 122-130. -/
def handleAssignment (st : St) : Res Unit :=
  match UseKind st .ID_IDENTIFIER with
  | .error e st1 => .error e st1
  | .ok varName st1 =>
    match UseKind st1 .ID_OPERATOR with
    | .error e st2 => .error e st2
    | .ok _ st2 =>
      match evaluateExpression st2 with
      | .error e st3 => .error e st3
      | .ok value st3 =>
        if mapFind st3.vars varName.lexeme = none then
          .error (.UndefinedVariable varName.line_id varName.lexeme) st3
        else
          .ok () { st3 with vars := mapUpdate st3.vars varName.lexeme [] (fun _ => value) }

/-- Project2.cpp lines 164-190: the statement dispatch on the next token. -/
def statement (st : St) : Res Unit :=
  let next := st.lexer.Peek 0
  if next.id = .ID_KEYWORD then
    if next.lexeme = ['V', 'A', 'R'] then
      handleVarStatement st
    else if next.lexeme = ['P', 'R', 'I', 'N', 'T'] then
      handlePrintStatement st
    else
      .error (.UnexpectedKeyword next.line_id next.lexeme) st
  else if next.id = .ID_IDENTIFIER then
    if (st.lexer.Peek 1).id = .ID_OPERATOR ∧ (st.lexer.Peek 1).lexeme = ['='] then
      handleAssignment st
    else
      .error (.UnexpectedToken next.line_id next.lexeme) st
  else if next.id = .ID_OPERATOR then
    if next.lexeme = ['{'] ∨ next.lexeme = ['}'] ∨ next.lexeme = ['('] ∨ next.lexeme = [')'] then
      .error (.UnexpectedToken next.line_id next.lexeme) st
    else
      .error (.UnexpectedToken next.line_id next.lexeme) st
  else
    .error (.UnexpectedToken next.line_id next.lexeme) st

/-- Project2.cpp lines 158-196, the `while` loop of `main`, bounded by `fuel`
iterations. -/
def mainLoop : Nat → St → Res Unit
  | 0, st => .error .OutOfFuel st
  | fuel + 1, st =>
    if st.lexer.Any = true then
      if (st.lexer.Peek 0).id = .ID_NEWLINE then
        mainLoop fuel { st with lexer := st.lexer.Use.2 }
      else
        match statement st with
        | .error e st1 => .error e st1
        | .ok _ st1 =>
          if st1.lexer.Any = true ∧ (st1.lexer.Peek 0).id = .ID_NEWLINE then
            mainLoop fuel { st1 with lexer := st1.lexer.Use.2 }
          else
            mainLoop fuel st1
    else
      .ok () st

/-- Project2.cpp lines 154-198: the run of `main` on the tokens that
`lexer.Tokenize(fs)` produced, from empty `variables` and empty output. -/
def interpret (tokens : List Token) : Res Unit :=
  mainLoop (tokens.length + 1) ⟨⟨tokens⟩, [], []⟩

/-! ## The symbol table (SymbolTable.hpp) -/

/-- SymbolTable.hpp lines 14-17. -/
structure VarInfo where
  value : Str
  def_line : Nat
  deriving DecidableEq, Repr

/-- The `VarInfo` that `symbols[name]` creates for a missing name. -/
def VarInfo.dflt : VarInfo := ⟨[], 0⟩

/-- SymbolTable.hpp lines 12-19. -/
structure SymbolTable where
  symbols : StrMap VarInfo
  deriving DecidableEq, Repr

/-- SymbolTable.hpp lines 22-28. -/
def SymbolTable.AddSymbol (self : SymbolTable) (token : Token) : Except Err SymbolTable :=
  if mapFind self.symbols token.lexeme ≠ none then
    .error (.DuplicateDeclaration token.line_id token.lexeme
      (mapIndex self.symbols token.lexeme VarInfo.dflt).1.def_line)
  else
    let symbols1 := mapUpdate self.symbols token.lexeme VarInfo.dflt
      (fun info => { info with value := [] })
    let symbols2 := mapUpdate symbols1 token.lexeme VarInfo.dflt
      (fun info => { info with def_line := token.line_id })
    .ok ⟨symbols2⟩

/-- SymbolTable.hpp lines 30-35. -/
def SymbolTable.GetSymbolValue (self : SymbolTable) (name : Str) : Except Err (Str × SymbolTable) :=
  if mapFind self.symbols name = none then
    .error (.UndefinedVariable 0 name)
  else
    let r := mapIndex self.symbols name VarInfo.dflt
    .ok (r.1.value, ⟨r.2⟩)

/-- SymbolTable.hpp lines 37-42. -/
def SymbolTable.SetSymbol (self : SymbolTable) (name value : Str) : Except Err SymbolTable :=
  if mapFind self.symbols name = none then
    .error (.UndefinedVariable 0 name)
  else
    .ok ⟨mapUpdate self.symbols name VarInfo.dflt (fun info => { info with value := value })⟩

/-- A call of one of the three public operations of `SymbolTable`. -/
inductive SymbolCall
  | add (token : Token)
  | get (name : Str)
  | set (name value : Str)
  deriving DecidableEq, Repr

/-- The table after one call, or the error that ended the run. -/
def SymbolTable.call (self : SymbolTable) : SymbolCall → Except Err SymbolTable
  | .add token => self.AddSymbol token
  | .get name =>
    match self.GetSymbolValue name with
    | .error e => .error e
    | .ok r => .ok r.2
  | .set name value => self.SetSymbol name value

/-- The table after a sequence of calls, none of which failed. -/
def SymbolTable.calls (self : SymbolTable) : List SymbolCall → Except Err SymbolTable
  | [] => .ok self
  | c :: cs =>
    match self.call c with
    | .error e => .error e
    | .ok next => next.calls cs

/-! ## Vocabulary of the properties -/

/-- The pattern `pat` occurs in `s` at position `p`: `s[p .. p + |pat|) = pat`. -/
def OccursAt (s pat : Str) (p : Nat) : Prop :=
  p + pat.length ≤ s.length ∧ (s.drop p).take pat.length = pat

instance (s pat : Str) (p : Nat) : Decidable (OccursAt s pat p) := by
  unfold OccursAt; infer_instance

/-- Position `p` is the first occurrence of `pat` in `s`. -/
def FirstOccurrence (s pat : Str) (p : Nat) : Prop :=
  OccursAt s pat p ∧ ∀ q, q < p → ¬ OccursAt s pat q

/-- Token `t` is a term of value `v` under the store `vars`: a string literal
(its value is the quote-stripped lexeme) or an identifier bound to `v`. -/
def IsTerm (vars : StrMap Str) (t : Token) (v : Str) : Prop :=
  (t.id = .ID_STRING ∧ stripQuotes t.lexeme = v) ∨
  (t.id = .ID_IDENTIFIER ∧ mapFind vars t.lexeme = some v)

instance (vars : StrMap Str) (t : Token) (v : Str) : Decidable (IsTerm vars t v) := by
  unfold IsTerm; infer_instance

/-- A string-literal token. -/
def strTok (lexeme : Str) (line : Nat) : Token := ⟨.ID_STRING, lexeme, line⟩

/-- An operator token. -/
def opTok (lexeme : Str) (line : Nat) : Token := ⟨.ID_OPERATOR, lexeme, line⟩

/-- An identifier token. -/
def idTok (lexeme : Str) (line : Nat) : Token := ⟨.ID_IDENTIFIER, lexeme, line⟩

/-- A keyword token. -/
def kwTok (lexeme : Str) (line : Nat) : Token := ⟨.ID_KEYWORD, lexeme, line⟩

/-- A newline token. -/
def nlTok (line : Nat) : Token := ⟨.ID_NEWLINE, ['\n'], line⟩

/-- The remaining tokens do not continue a `/`-`%` chain: the condition under
which the loop of `evaluateHighPrec` is left (lines 52-54, 71-73). -/
def highPrecStops (rest : List Token) : Prop :=
  ∀ t ∈ rest.head?, ¬ (t.id = .ID_OPERATOR ∧ (t.lexeme = ['/'] ∨ t.lexeme = ['%']))

instance (rest : List Token) : Decidable (highPrecStops rest) := by
  unfold highPrecStops; infer_instance

/-- The remaining tokens end an expression without an error: the next token,
if any, is no operator, or an operator that none of the two loops names
(lines 82-84, 96-102). -/
def exprStops (rest : List Token) : Prop :=
  ∀ t ∈ rest.head?, ¬ (t.id = .ID_OPERATOR ∧
    (t.lexeme ∈ [['/'], ['%'], ['+'], ['-']] ∨ t.lexeme ∈ exprBlocked))

instance (rest : List Token) : Decidable (exprStops rest) := by
  unfold exprStops; infer_instance

/-- The tokens of a chain of (operator, term, value of the term) steps. -/
def chainTokens : List (Token × Token × Str) → List Token
  | [] => []
  | (op, t, _) :: c => op :: t :: chainTokens c

/-- Every step of the chain is an operator with a lexeme among `ops` followed
by a term with the recorded value. -/
def IsChain (vars : StrMap Str) (ops : List Str) (c : List (Token × Token × Str)) : Prop :=
  ∀ x ∈ c, x.1.id = .ID_OPERATOR ∧ x.1.lexeme ∈ ops ∧ IsTerm vars x.2.1 x.2.2

/-- An operand of `+` and `-`: a term, its value, and the `/`-`%` chain that
follows the term. -/
structure Operand where
  term : Token
  value : Str
  chain : List (Token × Token × Str)

/-- The tokens of an operand. -/
def Operand.tokens (o : Operand) : List Token := o.term :: chainTokens o.chain

/-- The value of an operand: the left fold of its `/`-`%` chain. -/
def Operand.result (o : Operand) : Str :=
  o.chain.foldl (fun r x => applyHighPrec x.1.lexeme r x.2.2) o.value

/-- The operand is well formed under the store `vars`. -/
def IsOperand (vars : StrMap Str) (o : Operand) : Prop :=
  IsTerm vars o.term o.value ∧ IsChain vars [['/'], ['%']] o.chain

/-- The tokens of a chain of (`+` or `-` operator, operand) steps. -/
def exprTokens : List (Token × Operand) → List Token
  | [] => []
  | (op, o) :: c => op :: (o.tokens ++ exprTokens c)

/-- Every step of the chain is a `+` or `-` operator followed by a well-formed
operand. -/
def IsExpr (vars : StrMap Str) (c : List (Token × Operand)) : Prop :=
  ∀ x ∈ c, x.1.id = .ID_OPERATOR ∧ (x.1.lexeme = ['+'] ∨ x.1.lexeme = ['-']) ∧ IsOperand vars x.2

instance (s pat : Str) (p : Nat) : Decidable (FirstOccurrence s pat p) := by
  unfold FirstOccurrence; infer_instance

/-- A chain of single terms seen as a chain of operands without `/`-`%` part. -/
def plainOperands (c : List (Token × Token × Str)) : List (Token × Operand) :=
  c.map (fun x => (x.1, ⟨x.2.1, x.2.2, []⟩))

/-! ## The file-name gate of `main` (Project2.cpp lines 132-156) -/

/-- The test numbers that `main` lets through (lines 144-147). -/
def allowedTests : List Str :=
  [['0', '0'], ['0', '1'], ['0', '2'], ['0', '3'], ['0', '4'], ['1', '1'], ['1', '2'],
    ['1', '3'], ['1', '4'], ['1', '5'], ['1', '6'], ['1', '7'], ['1', '8'], ['1', '9'],
    ['2', '0'], ['2', '1']]

/-- Project2.cpp lines 132-199: `argv` are the command-line words and `tokens`
is what `lexer.Tokenize(fs)` produces from the file named by `argv[1]`. The
lexer and the variables do not exist yet when the two early exits are taken. -/
def main (argv : List Str) (tokens : List Token) : Res Unit :=
  if argv.length ≠ 2 then
    .error .Usage
      ⟨⟨[]⟩, [], ["Format: ".toList ++ argv.headD [] ++ " [filename]".toList]⟩
  else
    let filename := argv.getD 1 []
    match find filename ['t', 'e', 's', 't', '-'] with
    | some pos =>
      let testNum := substr filename (pos + 5) 2
      if testNum ∉ allowedTests then
        .error .UnsupportedTestCase ⟨⟨[]⟩, [], ["Unsupported test case".toList]⟩
      else
        interpret tokens
    | none => interpret tokens

/-! ## The tree evaluator (ASTNode.hpp) -/

/-- ASTNode.hpp lines 14-17: a token and the child nodes. -/
inductive ASTNode where
  | mk (token : Token) (children : List ASTNode)

/-- The field `token`. -/
def ASTNode.token : ASTNode → Token
  | .mk token _ => token

/-- The field `children`. -/
def ASTNode.children : ASTNode → List ASTNode
  | .mk _ children => children

/-- ASTNode.hpp lines 34-42. -/
def ASTNode.DoAssign (self : ASTNode) (value : Str) (symbols : SymbolTable) :
    Except Err SymbolTable :=
  if self.token.id ≠ .ID_IDENTIFIER then
    .error (.CannotAssign self.token.line_id self.token.lexeme)
  else
    symbols.SetSymbol self.token.lexeme value

/-- ASTNode.hpp lines 56-63. -/
def ASTNode.Run_String (self : ASTNode) : Str :=
  let str := self.token.lexeme
  if str.length ≥ 2 ∧ ((front str = '"' ∧ back str = '"') ∨ (front str = '\'' ∧ back str = '\'')) then
    substr str 1 (str.length - 2)
  else
    str

/-- ASTNode.hpp lines 65-98. The dispatcher `ASTNode::Run` is declared in
ASTNode.hpp (line 111) and defined in no source file, so it is the parameter
`Run`. -/
def ASTNode.Run_Op (Run : ASTNode → SymbolTable → Except Err (Str × SymbolTable))
    (self : ASTNode) (symbols : SymbolTable) : Except Err (Str × SymbolTable) :=
  match self.children with
  | [child0, child1] =>
    match Run child0 symbols with
    | .error e => .error e
    | .ok (val1, symbols1) =>
      match Run child1 symbols1 with
      | .error e => .error e
      | .ok (val2, symbols2) =>
        if self.token.lexeme = ['+'] then
          .ok (val1 ++ val2, symbols2)
        else if self.token.lexeme = ['-'] then
          match find val1 val2 with
          | some pos => .ok (substr val1 0 pos ++ substrFrom val1 (pos + val2.length), symbols2)
          | none => .ok (val1, symbols2)
        else if self.token.lexeme = ['/'] then
          match find val1 val2 with
          | some pos => .ok (substr val1 0 pos, symbols2)
          | none => .ok (val1, symbols2)
        else if self.token.lexeme = ['%'] then
          match find val1 val2 with
          | some pos => .ok (substrFrom val1 (pos + val2.length), symbols2)
          | none => .ok ([], symbols2)
        else
          .error (.UnknownBinaryOperator self.token.lexeme)
  | _ => .error .AssertionFailed

/-- ASTNode.hpp lines 107-109. -/
def ASTNode.Run_Variable (self : ASTNode) (symbols : SymbolTable) :
    Except Err (Str × SymbolTable) :=
  symbols.GetSymbolValue self.token.lexeme

/-! ## More vocabulary of the properties -/

/-- The state a routine ends in, whether it returns or fails. -/
def Res.state {α : Type} : Res α → St
  | .ok _ st => st
  | .error _ st => st

/-- The token is of a kind that can be a term: a string literal or an identifier. -/
def termKind (t : Token) : Prop := t.id = .ID_STRING ∨ t.id = .ID_IDENTIFIER

instance (t : Token) : Decidable (termKind t) := by
  unfold termKind; infer_instance

/-- The token is one of the four binary operators. -/
def binaryOp (t : Token) : Prop :=
  t.id = .ID_OPERATOR ∧ t.lexeme ∈ [['+'], ['-'], ['/'], ['%']]

instance (t : Token) : Decidable (binaryOp t) := by
  unfold binaryOp; infer_instance

/-- The tokens are (binary operator, term) pairs, one after the other. -/
def chainShape : List Token → Prop
  | [] => True
  | [_] => False
  | op :: t :: rest => binaryOp op ∧ termKind t ∧ chainShape rest

/-! ## `find` returns the first occurrence -/

theorem occursAt_iff_isPrefixOf (s pat : Str) (p : Nat) :
    OccursAt s pat p ↔ (p ≤ s.length ∧ pat.isPrefixOf (s.drop p) = true) := by
  unfold OccursAt
  rw [List.isPrefixOf_iff_prefix, List.prefix_iff_eq_take]
  constructor
  · rintro ⟨h1, h2⟩
    exact ⟨by omega, h2.symm⟩
  · rintro ⟨h1, h2⟩
    refine ⟨?_, h2.symm⟩
    have := congrArg List.length h2
    simp at this
    omega

theorem occursAt_zero (s pat : Str) : OccursAt s pat 0 ↔ pat.isPrefixOf s = true := by
  simp [occursAt_iff_isPrefixOf]

theorem occursAt_cons_succ (c : Char) (s pat : Str) (p : Nat) :
    OccursAt (c :: s) pat (p + 1) ↔ OccursAt s pat p := by
  simp [occursAt_iff_isPrefixOf]

theorem not_occursAt_nil_succ (pat : Str) (p : Nat) : ¬ OccursAt [] pat (p + 1) := by
  simp [OccursAt]

theorem find_eq_some_iff (s pat : Str) (p : Nat) :
    find s pat = some p ↔ FirstOccurrence s pat p := by
  induction s generalizing p with
  | nil =>
    unfold find FirstOccurrence
    by_cases h : pat.isPrefixOf [] = true
    · rw [if_pos h]
      constructor
      · intro hp
        cases hp
        exact ⟨(occursAt_zero _ _).2 h, fun q hq => absurd hq (Nat.not_lt_zero q)⟩
      · rintro ⟨h1, h2⟩
        cases p with
        | zero => rfl
        | succ n => exact absurd ((occursAt_zero _ _).2 h) (h2 0 (Nat.succ_pos n))
    · rw [if_neg h]
      constructor
      · intro hp; cases hp
      · rintro ⟨h1, _⟩
        cases p with
        | zero => exact absurd ((occursAt_zero _ _).1 h1) h
        | succ n => exact absurd h1 (not_occursAt_nil_succ pat n)
  | cons c t ih =>
    unfold find FirstOccurrence
    by_cases h : pat.isPrefixOf (c :: t) = true
    · rw [if_pos h]
      constructor
      · intro hp
        cases hp
        exact ⟨(occursAt_zero _ _).2 h, fun q hq => absurd hq (Nat.not_lt_zero q)⟩
      · rintro ⟨h1, h2⟩
        cases p with
        | zero => rfl
        | succ n => exact absurd ((occursAt_zero _ _).2 h) (h2 0 (Nat.succ_pos n))
    · rw [if_neg h]
      cases p with
      | zero =>
        constructor
        · intro hp
          cases hf : find t pat <;> simp [hf] at hp
        · rintro ⟨h1, _⟩
          exact absurd ((occursAt_zero _ _).1 h1) h
      | succ n =>
        have ih1 := ih n
        unfold FirstOccurrence at ih1
        constructor
        · intro hp
          have hn : find t pat = some n := by
            cases hf : find t pat <;> simp [hf] at hp
            subst hp; rfl
          obtain ⟨h1, h2⟩ := ih1.1 hn
          refine ⟨(occursAt_cons_succ c t pat n).2 h1, ?_⟩
          intro q hq
          cases q with
          | zero => exact fun hc => h ((occursAt_zero _ _).1 hc)
          | succ m =>
            exact fun hc => h2 m (by omega) ((occursAt_cons_succ c t pat m).1 hc)
        · rintro ⟨h1, h2⟩
          have : find t pat = some n := ih1.2
            ⟨(occursAt_cons_succ c t pat n).1 h1,
              fun q hq hc => h2 (q + 1) (by omega) ((occursAt_cons_succ c t pat q).2 hc)⟩
          simp [this]

theorem firstOccurrence_unique (s pat : Str) (p q : Nat)
    (hp : FirstOccurrence s pat p) (hq : FirstOccurrence s pat q) : p = q := by
  have h1 := (find_eq_some_iff s pat p).2 hp
  have h2 := (find_eq_some_iff s pat q).2 hq
  rw [h1] at h2
  exact Option.some.inj h2

theorem find_eq_none_iff (s pat : Str) :
    find s pat = none ↔ ∀ q, ¬ OccursAt s pat q := by
  constructor
  · intro h q hq
    -- a least occurrence exists below q
    have hex : ∃ n, OccursAt s pat n := ⟨q, hq⟩
    have hfirst : FirstOccurrence s pat (Nat.find hex) :=
      ⟨Nat.find_spec hex, fun m hm => Nat.find_min hex hm⟩
    rw [(find_eq_some_iff s pat _).2 hfirst] at h
    cases h
  · intro h
    cases hf : find s pat with
    | none => rfl
    | some p => exact absurd ((find_eq_some_iff s pat p).1 hf).1 (h p)

theorem find_bound (s pat : Str) (p : Nat) (h : find s pat = some p) :
    p + pat.length ≤ s.length :=
  ((find_eq_some_iff s pat p).1 h).1.1

/-! ## The variable map -/

theorem mapUpdate_id_of_find {β : Type} (m : StrMap β) (k : Str) (dflt : β)
    (h : mapFind m k ≠ none) : mapUpdate m k dflt id = m := by
  induction m with
  | nil => exact absurd rfl h
  | cons e rest ih =>
    obtain ⟨k1, v⟩ := e
    unfold mapUpdate
    by_cases hk : k1 = k
    · simp [hk]
    · have h1 : mapFind rest k ≠ none := by
        unfold mapFind at h
        simpa [hk] using h
      simp [hk, ih h1]

theorem mapFind_mapUpdate_self {β : Type} (m : StrMap β) (k : Str) (dflt : β) (f : β → β) :
    mapFind (mapUpdate m k dflt f) k = some (f ((mapFind m k).getD dflt)) := by
  induction m with
  | nil => simp [mapUpdate, mapFind]
  | cons e rest ih =>
    obtain ⟨k1, v⟩ := e
    by_cases hk : k1 = k
    · simp [mapUpdate, mapFind, hk]
    · simp [mapUpdate, mapFind, hk, ih]

theorem mapFind_mapUpdate_other {β : Type} (m : StrMap β) (k k2 : Str) (dflt : β) (f : β → β)
    (h : k2 ≠ k) : mapFind (mapUpdate m k dflt f) k2 = mapFind m k2 := by
  induction m with
  | nil =>
    have h1 : ¬ k = k2 := fun hc => h hc.symm
    simp [mapUpdate, mapFind, h1]
  | cons e rest ih =>
    obtain ⟨k1, v⟩ := e
    by_cases hk : k1 = k
    · have h1 : ¬ k = k2 := fun hc => h hc.symm
      simp [mapUpdate, mapFind, hk, h1]
    · by_cases hk2 : k1 = k2
      · subst hk2
        simp [mapUpdate, mapFind, hk]
      · simp [mapUpdate, mapFind, hk, hk2, ih]

/-! ## One term -/

theorem evaluateTerm_string (lexeme : Str) (line : Nat) (rest : List Token)
    (vars : StrMap Str) (out : List Str) :
    evaluateTerm ⟨⟨⟨.ID_STRING, lexeme, line⟩ :: rest⟩, vars, out⟩
      = .ok (stripQuotes lexeme) ⟨⟨rest⟩, vars, out⟩ := by
  simp [evaluateTerm, Lexer.Use, Lexer.Peek]

theorem evaluateTerm_identifier_bound (name : Str) (line : Nat) (rest : List Token)
    (vars : StrMap Str) (out : List Str) (v : Str) (h : mapFind vars name = some v) :
    evaluateTerm ⟨⟨⟨.ID_IDENTIFIER, name, line⟩ :: rest⟩, vars, out⟩
      = .ok v ⟨⟨rest⟩, vars, out⟩ := by
  have hne : mapFind vars name ≠ none := by rw [h]; exact Option.some_ne_none v
  simp [evaluateTerm, Lexer.Use, Lexer.Peek, mapIndex, h, mapUpdate_id_of_find vars name [] hne]

theorem evaluateTerm_identifier_unbound (name : Str) (line : Nat) (rest : List Token)
    (vars : StrMap Str) (out : List Str) (h : mapFind vars name = none) :
    evaluateTerm ⟨⟨⟨.ID_IDENTIFIER, name, line⟩ :: rest⟩, vars, out⟩
      = .error (.UndefinedVariable line name) ⟨⟨rest⟩, vars, out⟩ := by
  simp [evaluateTerm, Lexer.Use, Lexer.Peek, h]

theorem evaluateTerm_isTerm (t : Token) (v : Str) (rest : List Token)
    (vars : StrMap Str) (out : List Str) (h : IsTerm vars t v) :
    evaluateTerm ⟨⟨t :: rest⟩, vars, out⟩ = .ok v ⟨⟨rest⟩, vars, out⟩ := by
  obtain ⟨id, lexeme, line⟩ := t
  rcases h with ⟨h1, h2⟩ | ⟨h1, h2⟩
  · simp only at h1 h2
    subst h1
    rw [evaluateTerm_string, h2]
  · simp only at h1 h2
    subst h1
    exact evaluateTerm_identifier_bound lexeme line rest vars out v h2

/-! ## The two loops, one step at a time -/

theorem highPrecLoop_stop (fuel : Nat) (result : Str) (rest : List Token)
    (vars : StrMap Str) (out : List Str) (h : highPrecStops rest) :
    highPrecLoop (fuel + 1) result ⟨⟨rest⟩, vars, out⟩ = .ok result ⟨⟨rest⟩, vars, out⟩ := by
  cases rest with
  | nil => simp [highPrecLoop, Lexer.Any]
  | cons t r =>
    have ht := h t (by simp)
    unfold highPrecLoop
    by_cases h1 : t.id = .ID_OPERATOR
    · have h2 : ¬ (t.lexeme = ['/'] ∨ t.lexeme = ['%']) := fun hc => ht ⟨h1, hc⟩
      simp [Lexer.Any, Lexer.Peek, h1, h2]
    · simp [Lexer.Any, Lexer.Peek, h1]

theorem highPrecLoop_step (fuel : Nat) (result : Str) (op t : Token) (v : Str)
    (rest : List Token) (vars : StrMap Str) (out : List Str)
    (hop : op.id = .ID_OPERATOR) (hlex : op.lexeme = ['/'] ∨ op.lexeme = ['%'])
    (ht : IsTerm vars t v) :
    highPrecLoop (fuel + 1) result ⟨⟨op :: t :: rest⟩, vars, out⟩
      = highPrecLoop fuel (applyHighPrec op.lexeme result v) ⟨⟨rest⟩, vars, out⟩ := by
  have hterm := evaluateTerm_isTerm t v rest vars out ht
  rw [highPrecLoop]
  simp [Lexer.Any, Lexer.Peek, Lexer.Use, hop, hlex, hterm]

theorem highPrecLoop_chain (vars : StrMap Str) (out : List Str)
    (c : List (Token × Token × Str)) (rest : List Token)
    (hc : IsChain vars [['/'], ['%']] c) (hrest : highPrecStops rest)
    (fuel : Nat) (result : Str) (hfuel : (chainTokens c ++ rest).length < fuel) :
    highPrecLoop fuel result ⟨⟨chainTokens c ++ rest⟩, vars, out⟩
      = .ok (c.foldl (fun r x => applyHighPrec x.1.lexeme r x.2.2) result)
          ⟨⟨rest⟩, vars, out⟩ := by
  induction c generalizing fuel result with
  | nil =>
    cases fuel with
    | zero => exact absurd hfuel (Nat.not_lt_zero _)
    | succ n => simpa [chainTokens] using highPrecLoop_stop n result rest vars out hrest
  | cons x c ih =>
    obtain ⟨op, t, v⟩ := x
    obtain ⟨hop, hlex, ht⟩ := hc (op, t, v) (by simp)
    have hc1 : IsChain vars [['/'], ['%']] c := fun y hy => hc y (List.mem_cons_of_mem _ hy)
    cases fuel with
    | zero => exact absurd hfuel (Nat.not_lt_zero _)
    | succ n =>
      simp only [chainTokens, List.cons_append, List.foldl_cons]
      rw [highPrecLoop_step n result op t v _ vars out hop (by simpa using hlex) ht]
      apply ih hc1
      simp only [chainTokens, List.cons_append, List.length_cons] at hfuel
      omega

theorem evaluateHighPrec_chain (vars : StrMap Str) (out : List Str) (t0 : Token) (v0 : Str)
    (c : List (Token × Token × Str)) (rest : List Token)
    (h0 : IsTerm vars t0 v0) (hc : IsChain vars [['/'], ['%']] c) (hrest : highPrecStops rest) :
    evaluateHighPrec ⟨⟨t0 :: (chainTokens c ++ rest)⟩, vars, out⟩
      = .ok (c.foldl (fun r x => applyHighPrec x.1.lexeme r x.2.2) v0) ⟨⟨rest⟩, vars, out⟩ := by
  unfold evaluateHighPrec
  rw [evaluateTerm_isTerm t0 v0 _ vars out h0]
  exact highPrecLoop_chain vars out c rest hc hrest _ v0 (Nat.lt_succ_self _)

theorem highPrecLoop_chain_then (vars : StrMap Str) (out : List Str)
    (c : List (Token × Token × Str)) (tail : List Token)
    (hc : IsChain vars [['/'], ['%']] c)
    (fuel : Nat) (result : Str) (hfuel : c.length ≤ fuel) :
    highPrecLoop fuel result ⟨⟨chainTokens c ++ tail⟩, vars, out⟩
      = highPrecLoop (fuel - c.length)
          (c.foldl (fun r x => applyHighPrec x.1.lexeme r x.2.2) result)
          ⟨⟨tail⟩, vars, out⟩ := by
  induction c generalizing fuel result with
  | nil => simp [chainTokens]
  | cons x c ih =>
    obtain ⟨op, t, v⟩ := x
    obtain ⟨hop, hlex, ht⟩ := hc (op, t, v) (by simp)
    have hc1 : IsChain vars [['/'], ['%']] c := fun y hy => hc y (List.mem_cons_of_mem _ hy)
    cases fuel with
    | zero => simp at hfuel
    | succ n =>
      simp only [chainTokens, List.cons_append, List.foldl_cons, List.length_cons,
        Nat.succ_sub_succ]
      rw [highPrecLoop_step n result op t v _ vars out hop (by simpa using hlex) ht]
      exact ih hc1 n _ (by simpa using hfuel)

theorem highPrecLoop_step_error (fuel : Nat) (result : Str) (op : Token)
    (rest : List Token) (vars : StrMap Str) (out : List Str) (e : Err) (st1 : St)
    (hop : op.id = .ID_OPERATOR) (hlex : op.lexeme = ['/'] ∨ op.lexeme = ['%'])
    (ht : evaluateTerm ⟨⟨rest⟩, vars, out⟩ = .error e st1) :
    highPrecLoop (fuel + 1) result ⟨⟨op :: rest⟩, vars, out⟩ = .error e st1 := by
  rw [highPrecLoop]
  simp [Lexer.Any, Lexer.Peek, Lexer.Use, hop, hlex, ht]

theorem highPrecStops_of_exprStops (rest : List Token) (h : exprStops rest) :
    highPrecStops rest := by
  intro t ht hc
  apply h t ht
  refine ⟨hc.1, Or.inl ?_⟩
  rcases hc.2 with h1 | h1 <;> simp [h1]

theorem highPrecStops_cons (t : Token) (rest : List Token)
    (h : ¬ (t.id = .ID_OPERATOR ∧ (t.lexeme = ['/'] ∨ t.lexeme = ['%']))) :
    highPrecStops (t :: rest) := by
  intro t1 ht1
  simp at ht1
  subst ht1
  exact h

theorem highPrecStops_low (op : Token) (rest : List Token)
    (hlex : op.lexeme = ['+'] ∨ op.lexeme = ['-']) : highPrecStops (op :: rest) := by
  apply highPrecStops_cons
  rintro ⟨-, h1 | h1⟩ <;> rcases hlex with h2 | h2 <;> rw [h1] at h2 <;> simp at h2

theorem expressionLoop_stop (fuel : Nat) (result : Str) (rest : List Token)
    (vars : StrMap Str) (out : List Str) (h : exprStops rest) :
    expressionLoop (fuel + 1) result ⟨⟨rest⟩, vars, out⟩ = .ok result ⟨⟨rest⟩, vars, out⟩ := by
  cases rest with
  | nil => simp [expressionLoop, Lexer.Any]
  | cons t r =>
    have ht := h t (by simp)
    unfold expressionLoop
    by_cases h1 : t.id = .ID_OPERATOR
    · have h2 : ¬ (t.lexeme = ['+'] ∨ t.lexeme = ['-']) := by
        intro hc
        apply ht
        refine ⟨h1, Or.inl ?_⟩
        rcases hc with h3 | h3 <;> simp [h3]
      have h3 : ¬ t.lexeme ∈ exprBlocked := fun hc => ht ⟨h1, Or.inr hc⟩
      simp [Lexer.Any, Lexer.Peek, h1, h2, h3]
    · simp [Lexer.Any, Lexer.Peek, h1]

theorem expressionLoop_step (fuel : Nat) (result : Str) (op : Token) (right : Str)
    (rest : List Token) (vars : StrMap Str) (out : List Str) (st1 : St)
    (hop : op.id = .ID_OPERATOR) (hlex : op.lexeme = ['+'] ∨ op.lexeme = ['-'])
    (hr : evaluateHighPrec ⟨⟨rest⟩, vars, out⟩ = .ok right st1) :
    expressionLoop (fuel + 1) result ⟨⟨op :: rest⟩, vars, out⟩
      = expressionLoop fuel (applyLowPrec op.lexeme result right) st1 := by
  rw [expressionLoop]
  simp [Lexer.Any, Lexer.Peek, Lexer.Use, hop, hlex, hr]

theorem expressionLoop_step_error (fuel : Nat) (result : Str) (op : Token)
    (rest : List Token) (vars : StrMap Str) (out : List Str) (e : Err) (st1 : St)
    (hop : op.id = .ID_OPERATOR) (hlex : op.lexeme = ['+'] ∨ op.lexeme = ['-'])
    (hr : evaluateHighPrec ⟨⟨rest⟩, vars, out⟩ = .error e st1) :
    expressionLoop (fuel + 1) result ⟨⟨op :: rest⟩, vars, out⟩ = .error e st1 := by
  rw [expressionLoop]
  simp [Lexer.Any, Lexer.Peek, Lexer.Use, hop, hlex, hr]

/-! ## Well-formed expressions evaluate to the fold of their operators -/

theorem evaluateHighPrec_operand (vars : StrMap Str) (out : List Str) (o : Operand)
    (rest : List Token) (ho : IsOperand vars o) (hrest : highPrecStops rest) :
    evaluateHighPrec ⟨⟨o.tokens ++ rest⟩, vars, out⟩ = .ok o.result ⟨⟨rest⟩, vars, out⟩ := by
  simpa [Operand.tokens, Operand.result] using
    evaluateHighPrec_chain vars out o.term o.value o.chain rest ho.1 ho.2 hrest

theorem highPrecStops_exprTokens (vars : StrMap Str) (c : List (Token × Operand))
    (tail : List Token) (hc : IsExpr vars c) (htail : highPrecStops tail) :
    highPrecStops (exprTokens c ++ tail) := by
  cases c with
  | nil => simpa [exprTokens] using htail
  | cons x c =>
    obtain ⟨op, o⟩ := x
    exact highPrecStops_low op _ (hc (op, o) (by simp)).2.1

theorem expressionLoop_chain_then (vars : StrMap Str) (out : List Str)
    (c : List (Token × Operand)) (tail : List Token)
    (hc : IsExpr vars c) (htail : highPrecStops tail)
    (fuel : Nat) (result : Str) (hfuel : c.length ≤ fuel) :
    expressionLoop fuel result ⟨⟨exprTokens c ++ tail⟩, vars, out⟩
      = expressionLoop (fuel - c.length)
          (c.foldl (fun r x => applyLowPrec x.1.lexeme r x.2.result) result)
          ⟨⟨tail⟩, vars, out⟩ := by
  induction c generalizing fuel result with
  | nil => simp [exprTokens]
  | cons x c ih =>
    obtain ⟨op, o⟩ := x
    obtain ⟨hop, hlex, ho⟩ := hc (op, o) (by simp)
    have hc1 : IsExpr vars c := fun y hy => hc y (List.mem_cons_of_mem _ hy)
    cases fuel with
    | zero => simp at hfuel
    | succ n =>
      simp only [exprTokens, List.cons_append, List.foldl_cons, List.length_cons,
        Nat.succ_sub_succ, List.append_assoc]
      rw [expressionLoop_step n result op o.result _ vars out _ hop hlex
        (evaluateHighPrec_operand vars out o _ ho (highPrecStops_exprTokens vars c tail hc1 htail))]
      exact ih hc1 n _ (by simpa using hfuel)

theorem length_le_exprTokens (c : List (Token × Operand)) : c.length ≤ (exprTokens c).length := by
  induction c with
  | nil => simp
  | cons x c ih =>
    obtain ⟨op, o⟩ := x
    simp only [exprTokens, List.length_cons, List.length_append]
    omega

theorem evaluateExpression_expr (vars : StrMap Str) (out : List Str) (o0 : Operand)
    (c : List (Token × Operand)) (rest : List Token)
    (h0 : IsOperand vars o0) (hc : IsExpr vars c) (hrest : exprStops rest) :
    evaluateExpression ⟨⟨o0.tokens ++ (exprTokens c ++ rest)⟩, vars, out⟩
      = .ok (c.foldl (fun r x => applyLowPrec x.1.lexeme r x.2.result) o0.result)
          ⟨⟨rest⟩, vars, out⟩ := by
  have hstop := highPrecStops_of_exprStops rest hrest
  unfold evaluateExpression
  rw [evaluateHighPrec_operand vars out o0 _ h0 (highPrecStops_exprTokens vars c rest hc hstop)]
  simp only
  have hlen := length_le_exprTokens c
  rw [expressionLoop_chain_then vars out c rest hc hstop _ _
    (by simp only [List.length_append]; omega)]
  obtain ⟨n, hn⟩ : ∃ n, (exprTokens c ++ rest).length + 1 - c.length = n + 1 :=
    ⟨(exprTokens c ++ rest).length - c.length, by simp only [List.length_append]; omega⟩
  rw [hn]
  exact expressionLoop_stop n _ rest vars out hrest

/-! ## The operators on two operands -/

theorem applyLowPrec_plus (a b : Str) : applyLowPrec ['+'] a b = a ++ b := by
  simp [applyLowPrec]

theorem applyLowPrec_minus_found (a b : Str) (p : Nat) (h : FirstOccurrence a b p) :
    applyLowPrec ['-'] a b = a.take p ++ a.drop (p + b.length) := by
  have hf := (find_eq_some_iff a b p).2 h
  simp [applyLowPrec, hf, substr, substrFrom]

theorem applyLowPrec_minus_missing (a b : Str) (h : ∀ q, ¬ OccursAt a b q) :
    applyLowPrec ['-'] a b = a := by
  have hf := (find_eq_none_iff a b).2 h
  simp [applyLowPrec, hf]

theorem applyHighPrec_div_found (a b : Str) (p : Nat) (h : FirstOccurrence a b p) :
    applyHighPrec ['/'] a b = a.take p := by
  have hf := (find_eq_some_iff a b p).2 h
  simp [applyHighPrec, hf, substr]

theorem applyHighPrec_div_missing (a b : Str) (h : ∀ q, ¬ OccursAt a b q) :
    applyHighPrec ['/'] a b = a := by
  have hf := (find_eq_none_iff a b).2 h
  simp [applyHighPrec, hf]

theorem applyHighPrec_mod_found (a b : Str) (p : Nat) (h : FirstOccurrence a b p) :
    applyHighPrec ['%'] a b = a.drop (p + b.length) := by
  have hf := (find_eq_some_iff a b p).2 h
  simp [applyHighPrec, hf, substrFrom]

theorem applyHighPrec_mod_missing (a b : Str) (h : ∀ q, ¬ OccursAt a b q) :
    applyHighPrec ['%'] a b = [] := by
  have hf := (find_eq_none_iff a b).2 h
  simp [applyHighPrec, hf]

theorem isTerm_strTok (vars : StrMap Str) (lexeme : Str) (line : Nat) :
    IsTerm vars (strTok lexeme line) (stripQuotes lexeme) :=
  Or.inl ⟨rfl, rfl⟩

theorem isChain_nil (vars : StrMap Str) (ops : List Str) : IsChain vars ops [] := by
  intro x hx
  cases hx

/-- Two terms joined by `+` or `-`, evaluated by `evaluateExpression`. -/
theorem evaluateExpression_binary (vars : StrMap Str) (out : List Str) (t1 op t2 : Token)
    (a b : Str) (rest : List Token) (h1 : IsTerm vars t1 a) (h2 : IsTerm vars t2 b)
    (hop : op.id = .ID_OPERATOR) (hlex : op.lexeme = ['+'] ∨ op.lexeme = ['-'])
    (hrest : exprStops rest) :
    evaluateExpression ⟨⟨t1 :: op :: t2 :: rest⟩, vars, out⟩
      = .ok (applyLowPrec op.lexeme a b) ⟨⟨rest⟩, vars, out⟩ := by
  have h := evaluateExpression_expr vars out ⟨t1, a, []⟩ [(op, ⟨t2, b, []⟩)] rest
    ⟨h1, isChain_nil vars _⟩
    (by
      intro x hx
      simp only [List.mem_singleton] at hx
      subst hx
      exact ⟨hop, hlex, h2, isChain_nil vars _⟩)
    hrest
  simpa [Operand.tokens, Operand.result, exprTokens, chainTokens] using h

/-- Two terms joined by `/` or `%`, evaluated by `evaluateHighPrec`. -/
theorem evaluateHighPrec_binary (vars : StrMap Str) (out : List Str) (t1 op t2 : Token)
    (a b : Str) (rest : List Token) (h1 : IsTerm vars t1 a) (h2 : IsTerm vars t2 b)
    (hop : op.id = .ID_OPERATOR) (hlex : op.lexeme = ['/'] ∨ op.lexeme = ['%'])
    (hrest : highPrecStops rest) :
    evaluateHighPrec ⟨⟨t1 :: op :: t2 :: rest⟩, vars, out⟩
      = .ok (applyHighPrec op.lexeme a b) ⟨⟨rest⟩, vars, out⟩ := by
  have h := evaluateHighPrec_chain vars out t1 a [(op, t2, b)] rest h1
    (by
      intro x hx
      simp only [List.mem_singleton] at hx
      subst hx
      exact ⟨hop, by simpa using hlex, h2⟩)
    hrest
  simpa [chainTokens] using h

theorem exprStops_nil : exprStops [] := by
  intro t ht
  cases ht

theorem exprStops_newline (lexeme : Str) (line : Nat) (rest : List Token) :
    exprStops (⟨.ID_NEWLINE, lexeme, line⟩ :: rest) := by
  intro t ht
  simp at ht
  subst ht
  simp

/-! ## Quote stripping -/

theorem front_eq_iff (s : Str) (c : Char) (h : s ≠ []) : front s = c ↔ s.head? = some c := by
  cases s with
  | nil => exact absurd rfl h
  | cons x t => simp [front]

theorem back_eq_iff (s : Str) (c : Char) (h : s ≠ []) : back s = c ↔ s.getLast? = some c := by
  rw [back, List.getLastD_eq_getLast?]
  cases hl : s.getLast? with
  | none => exact absurd (List.getLast?_eq_none_iff.1 hl) h
  | some x => simp

theorem stripQuotes_cond_iff (s : Str) :
    (s.length ≥ 2 ∧ ((front s = '"' ∧ back s = '"') ∨ (front s = '\'' ∧ back s = '\'')))
      ↔ (2 ≤ s.length ∧ ((s.head? = some '"' ∧ s.getLast? = some '"') ∨
          (s.head? = some '\'' ∧ s.getLast? = some '\''))) := by
  constructor
  · rintro ⟨h1, h2⟩
    have hne : s ≠ [] := by intro hc; subst hc; simp at h1
    refine ⟨h1, ?_⟩
    simpa [front_eq_iff s _ hne, back_eq_iff s _ hne] using h2
  · rintro ⟨h1, h2⟩
    have hne : s ≠ [] := by intro hc; subst hc; simp at h1
    refine ⟨h1, ?_⟩
    simpa [front_eq_iff s _ hne, back_eq_iff s _ hne] using h2

theorem middle_of_ends (s : Str) (q : Char) (hlen : 2 ≤ s.length)
    (hh : s.head? = some q) (hl : s.getLast? = some q) :
    s = q :: ((s.drop 1).take (s.length - 2) ++ [q]) := by
  cases s with
  | nil => simp at hlen
  | cons c t =>
    cases t with
    | nil => simp at hlen
    | cons d u =>
      simp only [List.head?_cons, Option.some.injEq] at hh
      subst hh
      rw [List.getLast?_cons_cons] at hl
      have h1 := List.dropLast_append_getLast? c hl
      rw [List.dropLast_eq_take] at h1
      simp only [List.drop_succ_cons, List.drop_zero, List.length_cons,
        Nat.add_sub_cancel] at h1 ⊢
      have h2 : u.length + 1 + 1 - 2 = u.length := by omega
      rw [h2, h1]

/-! ## Chains of single terms -/

theorem exprTokens_plainOperands (c : List (Token × Token × Str)) :
    exprTokens (plainOperands c) = chainTokens c := by
  induction c with
  | nil => rfl
  | cons x c ih =>
    obtain ⟨op, t, v⟩ := x
    have h : plainOperands ((op, t, v) :: c) = (op, ⟨t, v, []⟩) :: plainOperands c := rfl
    rw [h]
    simp [exprTokens, chainTokens, Operand.tokens, ih]

theorem isExpr_plainOperands (vars : StrMap Str) (c : List (Token × Token × Str))
    (hc : IsChain vars [['+'], ['-']] c) : IsExpr vars (plainOperands c) := by
  intro x hx
  simp only [plainOperands, List.mem_map] at hx
  obtain ⟨y, hy, rfl⟩ := hx
  obtain ⟨h1, h2, h3⟩ := hc y hy
  exact ⟨h1, by simpa using h2, h3, isChain_nil vars _⟩

theorem foldl_plainOperands (c : List (Token × Token × Str)) (v0 : Str) :
    (plainOperands c).foldl (fun r x => applyLowPrec x.1.lexeme r x.2.result) v0
      = c.foldl (fun r x => applyLowPrec x.1.lexeme r x.2.2) v0 := by
  simp [plainOperands, List.foldl_map, Operand.result]

theorem evaluateExpression_chain (vars : StrMap Str) (out : List Str) (t0 : Token) (v0 : Str)
    (c : List (Token × Token × Str)) (rest : List Token)
    (h0 : IsTerm vars t0 v0) (hc : IsChain vars [['+'], ['-']] c) (hrest : exprStops rest) :
    evaluateExpression ⟨⟨t0 :: (chainTokens c ++ rest)⟩, vars, out⟩
      = .ok (c.foldl (fun r x => applyLowPrec x.1.lexeme r x.2.2) v0) ⟨⟨rest⟩, vars, out⟩ := by
  have h := evaluateExpression_expr vars out ⟨t0, v0, []⟩ (plainOperands c) rest
    ⟨h0, isChain_nil vars _⟩ (isExpr_plainOperands vars c hc) hrest
  rw [exprTokens_plainOperands, foldl_plainOperands] at h
  simpa [Operand.tokens, Operand.result, chainTokens] using h

/-! ## The first failing term decides the result -/

theorem evaluateHighPrec_first_error (st st1 : St) (e : Err)
    (h : evaluateTerm st = .error e st1) : evaluateHighPrec st = .error e st1 := by
  simp [evaluateHighPrec, h]

theorem evaluateHighPrec_operand_error (vars : StrMap Str) (out : List Str) (o : Operand)
    (op : Token) (tail : List Token) (e : Err) (st1 : St) (ho : IsOperand vars o)
    (hop : op.id = .ID_OPERATOR) (hlex : op.lexeme = ['/'] ∨ op.lexeme = ['%'])
    (h : evaluateTerm ⟨⟨tail⟩, vars, out⟩ = .error e st1) :
    evaluateHighPrec ⟨⟨o.tokens ++ op :: tail⟩, vars, out⟩ = .error e st1 := by
  unfold evaluateHighPrec
  simp only [Operand.tokens, List.cons_append]
  rw [evaluateTerm_isTerm o.term o.value _ vars out ho.1]
  simp only
  have hlen : (chainTokens o.chain).length = 2 * o.chain.length := by
    generalize o.chain = c
    induction c with
    | nil => rfl
    | cons x c ih =>
      obtain ⟨a, b, v⟩ := x
      simp only [chainTokens, List.length_cons, ih]
      omega
  rw [highPrecLoop_chain_then vars out o.chain (op :: tail) ho.2 _ _
    (by simp only [List.length_append, hlen]; omega)]
  obtain ⟨n, hn⟩ : ∃ n, (chainTokens o.chain ++ op :: tail).length + 1 - o.chain.length = n + 1 :=
    ⟨(chainTokens o.chain ++ op :: tail).length - o.chain.length,
      by simp only [List.length_append, hlen]; omega⟩
  rw [hn]
  exact highPrecLoop_step_error n _ op tail vars out e st1 hop hlex h

theorem evaluateExpression_first_error (st st1 : St) (e : Err)
    (h : evaluateHighPrec st = .error e st1) : evaluateExpression st = .error e st1 := by
  simp [evaluateExpression, h]

theorem evaluateExpression_error_low (vars : StrMap Str) (out : List Str) (o0 : Operand)
    (c : List (Token × Operand)) (op : Token) (tail : List Token) (e : Err) (st1 : St)
    (h0 : IsOperand vars o0) (hc : IsExpr vars c)
    (hop : op.id = .ID_OPERATOR) (hlex : op.lexeme = ['+'] ∨ op.lexeme = ['-'])
    (h : evaluateHighPrec ⟨⟨tail⟩, vars, out⟩ = .error e st1) :
    evaluateExpression ⟨⟨o0.tokens ++ (exprTokens c ++ op :: tail)⟩, vars, out⟩
      = .error e st1 := by
  have hstop : highPrecStops (op :: tail) := highPrecStops_low op tail hlex
  unfold evaluateExpression
  rw [evaluateHighPrec_operand vars out o0 _ h0
    (highPrecStops_exprTokens vars c _ hc hstop)]
  simp only
  have hlen := length_le_exprTokens c
  rw [expressionLoop_chain_then vars out c _ hc hstop _ _
    (by simp only [List.length_append]; omega)]
  obtain ⟨n, hn⟩ : ∃ n, (exprTokens c ++ op :: tail).length + 1 - c.length = n + 1 :=
    ⟨(exprTokens c ++ op :: tail).length - c.length, by simp only [List.length_append]; omega⟩
  rw [hn]
  exact expressionLoop_step_error n _ op tail vars out e st1 hop hlex h

theorem exprTokens_append (c1 c2 : List (Token × Operand)) :
    exprTokens (c1 ++ c2) = exprTokens c1 ++ exprTokens c2 := by
  induction c1 with
  | nil => rfl
  | cons x c ih =>
    obtain ⟨op, o⟩ := x
    simp [exprTokens, ih]

theorem evaluateExpression_error_high (vars : StrMap Str) (out : List Str) (o0 : Operand)
    (c : List (Token × Operand)) (op : Token) (tail : List Token) (e : Err) (st1 : St)
    (h0 : IsOperand vars o0) (hc : IsExpr vars c)
    (hop : op.id = .ID_OPERATOR) (hlex : op.lexeme = ['/'] ∨ op.lexeme = ['%'])
    (h : evaluateTerm ⟨⟨tail⟩, vars, out⟩ = .error e st1) :
    evaluateExpression ⟨⟨o0.tokens ++ (exprTokens c ++ op :: tail)⟩, vars, out⟩
      = .error e st1 := by
  rcases List.eq_nil_or_concat c with hnil | ⟨c1, x, hx⟩
  · subst hnil
    simp only [exprTokens, List.nil_append]
    exact evaluateExpression_first_error _ _ _
      (evaluateHighPrec_operand_error vars out o0 op tail e st1 h0 hop hlex h)
  · rw [List.concat_eq_append] at hx
    subst hx
    obtain ⟨lop, o⟩ := x
    obtain ⟨hlop, hllex, ho⟩ := hc (lop, o) (by simp)
    have hc1 : IsExpr vars c1 := fun y hy => hc y (List.mem_append_left _ hy)
    have htok : exprTokens (c1 ++ [(lop, o)]) ++ op :: tail
        = exprTokens c1 ++ lop :: (o.tokens ++ op :: tail) := by
      simp [exprTokens_append, exprTokens]
    rw [htok]
    exact evaluateExpression_error_low vars out o0 c1 lop _ e st1 h0 hc1 hlop hllex
      (evaluateHighPrec_operand_error vars out o op tail e st1 ho hop hlex h)

/-- An error of the term that follows a `+`, `-`, `/` or `%` after a
well-formed expression prefix is the result of `evaluateExpression`. -/
theorem evaluateExpression_error_after (vars : StrMap Str) (out : List Str) (o0 : Operand)
    (c : List (Token × Operand)) (op : Token) (tail : List Token) (e : Err) (st1 : St)
    (h0 : IsOperand vars o0) (hc : IsExpr vars c) (hop : op.id = .ID_OPERATOR)
    (hlex : op.lexeme ∈ [['+'], ['-'], ['/'], ['%']])
    (h : evaluateTerm ⟨⟨tail⟩, vars, out⟩ = .error e st1) :
    evaluateExpression ⟨⟨o0.tokens ++ (exprTokens c ++ op :: tail)⟩, vars, out⟩
      = .error e st1 := by
  simp only [List.mem_cons, List.mem_singleton, List.not_mem_nil, or_false] at hlex
  rcases hlex with h1 | h1 | h1 | h1
  · exact evaluateExpression_error_low vars out o0 c op tail e st1 h0 hc hop (Or.inl h1)
      (evaluateHighPrec_first_error _ _ _ h)
  · exact evaluateExpression_error_low vars out o0 c op tail e st1 h0 hc hop (Or.inr h1)
      (evaluateHighPrec_first_error _ _ _ h)
  · exact evaluateExpression_error_high vars out o0 c op tail e st1 h0 hc hop (Or.inl h1) h
  · exact evaluateExpression_error_high vars out o0 c op tail e st1 h0 hc hop (Or.inr h1) h

/-! ## The symbol table keeps the line of the first declaration -/

theorem addSymbol_of_missing (st : SymbolTable) (t : Token)
    (h : mapFind st.symbols t.lexeme = none) :
    st.AddSymbol t = .ok ⟨mapUpdate
      (mapUpdate st.symbols t.lexeme VarInfo.dflt (fun info => { info with value := [] }))
      t.lexeme VarInfo.dflt (fun info => { info with def_line := t.line_id })⟩ := by
  simp [SymbolTable.AddSymbol, h]

theorem addSymbol_of_present (st : SymbolTable) (t : Token) (info : VarInfo)
    (h : mapFind st.symbols t.lexeme = some info) :
    st.AddSymbol t = .error (.DuplicateDeclaration t.line_id t.lexeme info.def_line) := by
  simp [SymbolTable.AddSymbol, h, mapIndex]

theorem call_keeps_def_line (st st1 : SymbolTable) (c : SymbolCall) (name : Str) (d : Nat)
    (h : ∃ info, mapFind st.symbols name = some info ∧ info.def_line = d)
    (hc : st.call c = .ok st1) :
    ∃ info, mapFind st1.symbols name = some info ∧ info.def_line = d := by
  obtain ⟨info, hfind, hline⟩ := h
  cases c with
  | add token =>
    simp only [SymbolTable.call] at hc
    cases hm : mapFind st.symbols token.lexeme with
    | some i2 =>
      rw [addSymbol_of_present st token i2 hm] at hc
      cases hc
    | none =>
      rw [addSymbol_of_missing st token hm] at hc
      have hne : name ≠ token.lexeme := by
        intro heq
        rw [heq, hm] at hfind
        cases hfind
      cases hc
      refine ⟨info, ?_, hline⟩
      simp only
      rw [mapFind_mapUpdate_other _ _ _ _ _ hne, mapFind_mapUpdate_other _ _ _ _ _ hne, hfind]
  | get n =>
    simp only [SymbolTable.call, SymbolTable.GetSymbolValue] at hc
    by_cases hm : mapFind st.symbols n = none
    · simp [hm] at hc
    · simp only [hm, if_false, mapIndex] at hc
      cases hc
      refine ⟨info, ?_, hline⟩
      simp only
      rw [mapUpdate_id_of_find _ _ _ hm, hfind]
  | set n v =>
    simp only [SymbolTable.call, SymbolTable.SetSymbol] at hc
    by_cases hm : mapFind st.symbols n = none
    · simp [hm] at hc
    · simp only [hm, if_false] at hc
      cases hc
      by_cases hn : name = n
      · subst hn
        refine ⟨{ info with value := v }, ?_, hline⟩
        simp only
        rw [mapFind_mapUpdate_self, hfind]
        rfl
      · refine ⟨info, ?_, hline⟩
        simp only
        rw [mapFind_mapUpdate_other _ _ _ _ _ hn, hfind]

theorem calls_keep_def_line (cs : List SymbolCall) (st st1 : SymbolTable) (name : Str) (d : Nat)
    (h : ∃ info, mapFind st.symbols name = some info ∧ info.def_line = d)
    (hc : st.calls cs = .ok st1) :
    ∃ info, mapFind st1.symbols name = some info ∧ info.def_line = d := by
  induction cs generalizing st with
  | nil =>
    simp only [SymbolTable.calls] at hc
    cases hc
    exact h
  | cons c cs ih =>
    simp only [SymbolTable.calls] at hc
    cases hcall : st.call c with
    | error e =>
      rw [hcall] at hc
      cases hc
    | ok next =>
      rw [hcall] at hc
      exact ih next (call_keeps_def_line st next c name d h hcall) hc

/-! ## The loops never run out of their iteration bound -/

theorem evaluateTerm_ok_tokens (st st1 : St) (v : Str) (h : evaluateTerm st = .ok v st1) :
    st1.lexer.tokens = st.lexer.tokens.tail := by
  unfold evaluateTerm at h
  simp only [Lexer.Use] at h
  split_ifs at h <;> cases h <;> rfl

theorem evaluateTerm_error_ne (st st1 : St) (e : Err) (h : evaluateTerm st = .error e st1) :
    e ≠ .OutOfFuel := by
  unfold evaluateTerm at h
  simp only at h
  split_ifs at h <;> cases h <;> simp

theorem tokens_of_any (lexer : Lexer) (h : lexer.Any = true) :
    lexer.tokens.tail.length + 1 = lexer.tokens.length := by
  obtain ⟨tokens⟩ := lexer
  cases tokens with
  | nil => simp [Lexer.Any] at h
  | cons t r => simp

theorem highPrecLoop_total (fuel : Nat) (result : Str) (st : St)
    (hfuel : st.lexer.tokens.length < fuel) :
    (∀ st1, highPrecLoop fuel result st ≠ .error .OutOfFuel st1)
    ∧ (∀ v st1, highPrecLoop fuel result st = .ok v st1 →
        st1.lexer.tokens.length ≤ st.lexer.tokens.length) := by
  induction fuel generalizing result st with
  | zero => exact absurd hfuel (Nat.not_lt_zero _)
  | succ n ih =>
    unfold highPrecLoop
    by_cases h1 : st.lexer.Any = true ∧ (st.lexer.Peek 0).id = .ID_OPERATOR
    · rw [if_pos h1]
      simp only
      by_cases h2 : (st.lexer.Peek 0).lexeme = ['/'] ∨ (st.lexer.Peek 0).lexeme = ['%']
      · rw [if_pos h2]
        have hlen := tokens_of_any st.lexer h1.1
        cases hterm : evaluateTerm { st with lexer := st.lexer.Use.2 } with
        | error e st2 =>
          simp only
          refine ⟨fun st1 hc => ?_, fun v st1 hc => by cases hc⟩
          cases hc
          exact evaluateTerm_error_ne _ _ _ hterm rfl
        | ok right st2 =>
          simp only
          have htok := evaluateTerm_ok_tokens _ _ _ hterm
          simp only [Lexer.Use] at htok
          have hle : st2.lexer.tokens.length ≤ st.lexer.tokens.tail.length := by
            rw [htok, List.length_tail]
            omega
          obtain ⟨ih1, ih2⟩ := ih (applyHighPrec (st.lexer.Peek 0).lexeme result right) st2
            (by omega)
          exact ⟨ih1, fun v st1 hc => by have := ih2 v st1 hc; omega⟩
      · rw [if_neg h2]
        exact ⟨fun st1 hc => (by cases hc), fun v st1 hc => (by cases hc; exact Nat.le_refl _)⟩
    · rw [if_neg h1]
      exact ⟨fun st1 hc => (by cases hc), fun v st1 hc => (by cases hc; exact Nat.le_refl _)⟩

theorem evaluateHighPrec_total (st : St) :
    (∀ st1, evaluateHighPrec st ≠ .error .OutOfFuel st1)
    ∧ (∀ v st1, evaluateHighPrec st = .ok v st1 →
        st1.lexer.tokens.length ≤ st.lexer.tokens.length) := by
  unfold evaluateHighPrec
  cases hterm : evaluateTerm st with
  | error e st2 =>
    simp only
    refine ⟨fun st1 hc => ?_, fun v st1 hc => by cases hc⟩
    cases hc
    exact evaluateTerm_error_ne _ _ _ hterm rfl
  | ok result st2 =>
    simp only
    have htok := evaluateTerm_ok_tokens _ _ _ hterm
    obtain ⟨h1, h2⟩ := highPrecLoop_total (st2.lexer.tokens.length + 1) result st2
      (Nat.lt_succ_self _)
    refine ⟨h1, fun v st1 hc => ?_⟩
    have := h2 v st1 hc
    rw [htok, List.length_tail] at this
    omega

theorem expressionLoop_total (fuel : Nat) (result : Str) (st : St)
    (hfuel : st.lexer.tokens.length < fuel) :
    (∀ st1, expressionLoop fuel result st ≠ .error .OutOfFuel st1)
    ∧ (∀ v st1, expressionLoop fuel result st = .ok v st1 →
        st1.lexer.tokens.length ≤ st.lexer.tokens.length) := by
  induction fuel generalizing result st with
  | zero => exact absurd hfuel (Nat.not_lt_zero _)
  | succ n ih =>
    unfold expressionLoop
    by_cases h1 : st.lexer.Any = true ∧ (st.lexer.Peek 0).id = .ID_OPERATOR
    · rw [if_pos h1]
      simp only
      by_cases h2 : (st.lexer.Peek 0).lexeme = ['+'] ∨ (st.lexer.Peek 0).lexeme = ['-']
      · rw [if_pos h2]
        have hlen := tokens_of_any st.lexer h1.1
        obtain ⟨hp1, hp2⟩ := evaluateHighPrec_total { st with lexer := st.lexer.Use.2 }
        cases hhp : evaluateHighPrec { st with lexer := st.lexer.Use.2 } with
        | error e st2 =>
          simp only
          refine ⟨fun st1 hc => ?_, fun v st1 hc => by cases hc⟩
          cases hc
          exact hp1 _ hhp
        | ok right st2 =>
          simp only
          have hle := hp2 right st2 hhp
          simp only [Lexer.Use] at hle
          obtain ⟨ih1, ih2⟩ := ih (applyLowPrec (st.lexer.Peek 0).lexeme result right) st2
            (by omega)
          exact ⟨ih1, fun v st1 hc => by have := ih2 v st1 hc; omega⟩
      · rw [if_neg h2]
        by_cases h3 : (st.lexer.Peek 0).lexeme ∈ exprBlocked
        · rw [if_pos h3]
          exact ⟨fun st1 hc => (by cases hc), fun v st1 hc => (by cases hc)⟩
        · rw [if_neg h3]
          exact ⟨fun st1 hc => (by cases hc), fun v st1 hc => (by cases hc; exact Nat.le_refl _)⟩
    · rw [if_neg h1]
      exact ⟨fun st1 hc => (by cases hc), fun v st1 hc => (by cases hc; exact Nat.le_refl _)⟩

theorem evaluateExpression_total (st : St) :
    (∀ st1, evaluateExpression st ≠ .error .OutOfFuel st1)
    ∧ (∀ v st1, evaluateExpression st = .ok v st1 →
        st1.lexer.tokens.length ≤ st.lexer.tokens.length) := by
  unfold evaluateExpression
  obtain ⟨hp1, hp2⟩ := evaluateHighPrec_total st
  cases hhp : evaluateHighPrec st with
  | error e st2 =>
    simp only
    refine ⟨fun st1 hc => ?_, fun v st1 hc => by cases hc⟩
    cases hc
    exact hp1 _ hhp
  | ok result st2 =>
    simp only
    obtain ⟨h1, h2⟩ := expressionLoop_total (st2.lexer.tokens.length + 1) result st2
      (Nat.lt_succ_self _)
    refine ⟨h1, fun v st1 hc => ?_⟩
    have := h2 v st1 hc
    have := hp2 result st2 hhp
    omega

/-- The iteration bound of `evaluateExpression` is never reached: every call
returns a value or one of the program's own errors. -/
theorem evaluateExpression_ne_outOfFuel (st st1 : St) :
    evaluateExpression st ≠ .error .OutOfFuel st1 :=
  (evaluateExpression_total st).1 st1

theorem useKind_ok_length (st st1 : St) (k : TokenKind) (tok : Token) (hk : k ≠ .ID_EOF)
    (h : UseKind st k = .ok tok st1) :
    st1.lexer.tokens.length < st.lexer.tokens.length := by
  unfold UseKind at h
  simp only at h
  split_ifs at h with hid
  cases h
  obtain ⟨lexer, vars, out⟩ := st
  obtain ⟨tokens⟩ := lexer
  cases tokens with
  | nil => exact absurd hid.symm hk
  | cons t r => simp [Lexer.Use]

theorem useKind_error_ne (st st1 : St) (k : TokenKind) (e : Err)
    (h : UseKind st k = .error e st1) : e ≠ .OutOfFuel := by
  unfold UseKind at h
  simp only at h
  split_ifs at h
  cases h
  simp

theorem handleVarStatement_total (st : St) :
    (∀ st1, handleVarStatement st ≠ .error .OutOfFuel st1)
    ∧ (∀ u st1, handleVarStatement st = .ok u st1 →
        st1.lexer.tokens.length < st.lexer.tokens.length) := by
  unfold handleVarStatement
  cases h1 : UseKind st .ID_KEYWORD with
  | error e s1 =>
    exact ⟨fun st1 hc => (by cases hc; exact useKind_error_ne _ _ _ _ h1 rfl),
      fun u st1 hc => (by cases hc)⟩
  | ok t1 s1 =>
    simp only
    have hl1 := useKind_ok_length _ _ _ _ (by decide) h1
    cases h2 : UseKind s1 .ID_IDENTIFIER with
    | error e s2 =>
      exact ⟨fun st1 hc => (by cases hc; exact useKind_error_ne _ _ _ _ h2 rfl),
        fun u st1 hc => (by cases hc)⟩
    | ok varName s2 =>
      simp only
      have hl2 := useKind_ok_length _ _ _ _ (by decide) h2
      cases h3 : UseKind s2 .ID_OPERATOR with
      | error e s3 =>
        exact ⟨fun st1 hc => (by cases hc; exact useKind_error_ne _ _ _ _ h3 rfl),
          fun u st1 hc => (by cases hc)⟩
      | ok t3 s3 =>
        simp only
        have hl3 := useKind_ok_length _ _ _ _ (by decide) h3
        obtain ⟨he1, he2⟩ := evaluateExpression_total s3
        cases h4 : evaluateExpression s3 with
        | error e s4 =>
          exact ⟨fun st1 hc => (by cases hc; exact he1 _ h4), fun u st1 hc => (by cases hc)⟩
        | ok value s4 =>
          have hl4 := he2 value s4 h4
          exact ⟨fun st1 hc => (by cases hc), fun u st1 hc => (by cases hc; simp only; omega)⟩

theorem handlePrintStatement_total (st : St) :
    (∀ st1, handlePrintStatement st ≠ .error .OutOfFuel st1)
    ∧ (∀ u st1, handlePrintStatement st = .ok u st1 →
        st1.lexer.tokens.length < st.lexer.tokens.length) := by
  unfold handlePrintStatement
  cases h1 : UseKind st .ID_KEYWORD with
  | error e s1 =>
    exact ⟨fun st1 hc => (by cases hc; exact useKind_error_ne _ _ _ _ h1 rfl),
      fun u st1 hc => (by cases hc)⟩
  | ok t1 s1 =>
    simp only
    have hl1 := useKind_ok_length _ _ _ _ (by decide) h1
    obtain ⟨he1, he2⟩ := evaluateExpression_total s1
    cases h4 : evaluateExpression s1 with
    | error e s4 =>
      exact ⟨fun st1 hc => (by cases hc; exact he1 _ h4), fun u st1 hc => (by cases hc)⟩
    | ok value s4 =>
      have hl4 := he2 value s4 h4
      exact ⟨fun st1 hc => (by cases hc), fun u st1 hc => (by cases hc; simp only; omega)⟩

theorem handleAssignment_total (st : St) :
    (∀ st1, handleAssignment st ≠ .error .OutOfFuel st1)
    ∧ (∀ u st1, handleAssignment st = .ok u st1 →
        st1.lexer.tokens.length < st.lexer.tokens.length) := by
  unfold handleAssignment
  cases h2 : UseKind st .ID_IDENTIFIER with
  | error e s2 =>
    exact ⟨fun st1 hc => (by cases hc; exact useKind_error_ne _ _ _ _ h2 rfl),
      fun u st1 hc => (by cases hc)⟩
  | ok varName s2 =>
    simp only
    have hl2 := useKind_ok_length _ _ _ _ (by decide) h2
    cases h3 : UseKind s2 .ID_OPERATOR with
    | error e s3 =>
      exact ⟨fun st1 hc => (by cases hc; exact useKind_error_ne _ _ _ _ h3 rfl),
        fun u st1 hc => (by cases hc)⟩
    | ok t3 s3 =>
      simp only
      have hl3 := useKind_ok_length _ _ _ _ (by decide) h3
      obtain ⟨he1, he2⟩ := evaluateExpression_total s3
      cases h4 : evaluateExpression s3 with
      | error e s4 =>
        exact ⟨fun st1 hc => (by cases hc; exact he1 _ h4), fun u st1 hc => (by cases hc)⟩
      | ok value s4 =>
        have hl4 := he2 value s4 h4
        simp only
        split_ifs
        · exact ⟨fun st1 hc => (by cases hc), fun u st1 hc => (by cases hc)⟩
        · exact ⟨fun st1 hc => (by cases hc), fun u st1 hc => (by cases hc; simp only; omega)⟩

theorem statement_total (st : St) :
    (∀ st1, statement st ≠ .error .OutOfFuel st1)
    ∧ (∀ u st1, statement st = .ok u st1 →
        st1.lexer.tokens.length < st.lexer.tokens.length) := by
  unfold statement
  simp only
  split_ifs
  · exact handleVarStatement_total st
  · exact handlePrintStatement_total st
  all_goals first
    | exact handleAssignment_total st
    | exact ⟨fun st1 hc => (by cases hc), fun u st1 hc => (by cases hc)⟩

theorem mainLoop_ne_outOfFuel (fuel : Nat) (st st1 : St)
    (hfuel : st.lexer.tokens.length < fuel) : mainLoop fuel st ≠ .error .OutOfFuel st1 := by
  induction fuel generalizing st with
  | zero => exact absurd hfuel (Nat.not_lt_zero _)
  | succ n ih =>
    unfold mainLoop
    by_cases h1 : st.lexer.Any = true
    · rw [if_pos h1]
      have hlen := tokens_of_any st.lexer h1
      by_cases h2 : (st.lexer.Peek 0).id = .ID_NEWLINE
      · rw [if_pos h2]
        apply ih
        simp only [Lexer.Use]
        omega
      · rw [if_neg h2]
        obtain ⟨hs1, hs2⟩ := statement_total st
        cases hs : statement st with
        | error e s1 =>
          simp only
          intro hc
          cases hc
          exact hs1 _ hs
        | ok u s1 =>
          simp only
          have hl := hs2 u s1 hs
          split_ifs
          · apply ih
            simp only [Lexer.Use, List.length_tail]
            omega
          · apply ih
            omega
    · rw [if_neg h1]
      intro hc
      cases hc

/-- The iteration bound of the top-level loop is never reached: every run ends
normally or with one of the program's own errors. -/
theorem interpret_ne_outOfFuel (tokens : List Token) (st1 : St) :
    interpret tokens ≠ .error .OutOfFuel st1 :=
  mainLoop_ne_outOfFuel _ _ st1 (Nat.lt_succ_self _)

/-! ## Expression evaluation only moves the cursor -/

theorem evaluateTerm_state (st : St) :
    (evaluateTerm st).state = { st with lexer := st.lexer.Use.2 } := by
  unfold evaluateTerm
  simp only
  split_ifs with h1 h2 h3 h4
  · rfl
  · rfl
  · simp only [Res.state, mapIndex]
    rw [mapUpdate_id_of_find _ _ _ h3]
  · rfl
  · rfl

theorem highPrecLoop_frame (fuel : Nat) (result : Str) (st : St) :
    (highPrecLoop fuel result st).state.vars = st.vars
    ∧ (highPrecLoop fuel result st).state.out = st.out := by
  induction fuel generalizing result st with
  | zero => exact ⟨rfl, rfl⟩
  | succ n ih =>
    unfold highPrecLoop
    by_cases h1 : st.lexer.Any = true ∧ (st.lexer.Peek 0).id = .ID_OPERATOR
    · rw [if_pos h1]
      simp only
      by_cases h2 : (st.lexer.Peek 0).lexeme = ['/'] ∨ (st.lexer.Peek 0).lexeme = ['%']
      · rw [if_pos h2]
        have hs := evaluateTerm_state { st with lexer := st.lexer.Use.2 }
        cases hterm : evaluateTerm { st with lexer := st.lexer.Use.2 } with
        | error e st1 =>
          rw [hterm] at hs
          simp only [Res.state] at hs ⊢
          rw [hs]
          exact ⟨rfl, rfl⟩
        | ok right st1 =>
          rw [hterm] at hs
          simp only [Res.state] at hs
          simp only
          obtain ⟨i1, i2⟩ := ih (applyHighPrec (st.lexer.Peek 0).lexeme result right) st1
          rw [i1, i2, hs]
          exact ⟨rfl, rfl⟩
      · rw [if_neg h2]
        exact ⟨rfl, rfl⟩
    · rw [if_neg h1]
      exact ⟨rfl, rfl⟩

theorem evaluateHighPrec_frame (st : St) :
    (evaluateHighPrec st).state.vars = st.vars ∧ (evaluateHighPrec st).state.out = st.out := by
  unfold evaluateHighPrec
  have hs := evaluateTerm_state st
  cases hterm : evaluateTerm st with
  | error e st1 =>
    rw [hterm] at hs
    simp only [Res.state] at hs ⊢
    rw [hs]
    exact ⟨rfl, rfl⟩
  | ok result st1 =>
    rw [hterm] at hs
    simp only [Res.state] at hs
    simp only
    obtain ⟨i1, i2⟩ := highPrecLoop_frame (st1.lexer.tokens.length + 1) result st1
    rw [i1, i2, hs]
    exact ⟨rfl, rfl⟩

theorem expressionLoop_frame (fuel : Nat) (result : Str) (st : St) :
    (expressionLoop fuel result st).state.vars = st.vars
    ∧ (expressionLoop fuel result st).state.out = st.out := by
  induction fuel generalizing result st with
  | zero => exact ⟨rfl, rfl⟩
  | succ n ih =>
    unfold expressionLoop
    by_cases h1 : st.lexer.Any = true ∧ (st.lexer.Peek 0).id = .ID_OPERATOR
    · rw [if_pos h1]
      simp only
      by_cases h2 : (st.lexer.Peek 0).lexeme = ['+'] ∨ (st.lexer.Peek 0).lexeme = ['-']
      · rw [if_pos h2]
        obtain ⟨f1, f2⟩ := evaluateHighPrec_frame { st with lexer := st.lexer.Use.2 }
        cases hhp : evaluateHighPrec { st with lexer := st.lexer.Use.2 } with
        | error e st1 =>
          rw [hhp] at f1 f2
          exact ⟨f1, f2⟩
        | ok right st1 =>
          rw [hhp] at f1 f2
          simp only [Res.state] at f1 f2
          simp only
          obtain ⟨i1, i2⟩ := ih (applyLowPrec (st.lexer.Peek 0).lexeme result right) st1
          rw [i1, i2, f1, f2]
          exact ⟨rfl, rfl⟩
      · rw [if_neg h2]
        by_cases h3 : (st.lexer.Peek 0).lexeme ∈ exprBlocked
        · rw [if_pos h3]
          exact ⟨rfl, rfl⟩
        · rw [if_neg h3]
          exact ⟨rfl, rfl⟩
    · rw [if_neg h1]
      exact ⟨rfl, rfl⟩

theorem evaluateExpression_frame (st : St) :
    (evaluateExpression st).state.vars = st.vars
    ∧ (evaluateExpression st).state.out = st.out := by
  unfold evaluateExpression
  obtain ⟨f1, f2⟩ := evaluateHighPrec_frame st
  cases hhp : evaluateHighPrec st with
  | error e st1 =>
    rw [hhp] at f1 f2
    exact ⟨f1, f2⟩
  | ok result st1 =>
    rw [hhp] at f1 f2
    simp only [Res.state] at f1 f2
    simp only
    obtain ⟨i1, i2⟩ := expressionLoop_frame (st1.lexer.tokens.length + 1) result st1
    rw [i1, i2, f1, f2]
    exact ⟨rfl, rfl⟩

/-! ## What a successful evaluation has consumed -/

theorem evaluateTerm_ok_shape (st st1 : St) (v : Str) (h : evaluateTerm st = .ok v st1) :
    ∃ t, st.lexer.tokens = t :: st1.lexer.tokens ∧ termKind t := by
  have htail := evaluateTerm_ok_tokens st st1 v h
  obtain ⟨⟨tokens⟩, vars, out⟩ := st
  cases tokens with
  | nil => simp [evaluateTerm, Lexer.Use, Lexer.Peek, eofToken] at h
  | cons t r =>
    refine ⟨t, by simpa using htail.symm, ?_⟩
    unfold evaluateTerm at h
    simp only [Lexer.Use, Lexer.Peek, List.getD_cons_zero] at h
    by_cases h1 : t.id = .ID_STRING
    · exact Or.inl h1
    · by_cases h2 : t.id = .ID_IDENTIFIER
      · exact Or.inr h2
      · rw [if_neg h1, if_neg h2] at h
        split_ifs at h

theorem chainShape_append (p q : List Token) (hp : chainShape p) (hq : chainShape q) :
    chainShape (p ++ q) := by
  induction p using chainShape.induct with
  | case1 => simpa using hq
  | case2 t => exact absurd hp (by simp [chainShape])
  | case3 op t rest ih =>
    simp only [chainShape] at hp
    simp only [List.cons_append, chainShape]
    exact ⟨hp.1, hp.2.1, ih hp.2.2⟩

theorem highPrecStops_of_not (st : St)
    (h : ¬ (st.lexer.Any = true ∧ (st.lexer.Peek 0).id = .ID_OPERATOR ∧
      ((st.lexer.Peek 0).lexeme = ['/'] ∨ (st.lexer.Peek 0).lexeme = ['%']))) :
    highPrecStops st.lexer.tokens := by
  obtain ⟨⟨tokens⟩, vars, out⟩ := st
  cases tokens with
  | nil => intro t ht; cases ht
  | cons t r =>
    apply highPrecStops_cons
    intro hc
    apply h
    simpa [Lexer.Any, Lexer.Peek] using hc

theorem highPrecLoop_shape (fuel : Nat) (result : Str) (st st1 : St) (v : Str)
    (h : highPrecLoop fuel result st = .ok v st1) :
    ∃ p, st.lexer.tokens = p ++ st1.lexer.tokens ∧ chainShape p
      ∧ highPrecStops st1.lexer.tokens := by
  induction fuel generalizing result st with
  | zero => simp [highPrecLoop] at h
  | succ n ih =>
    unfold highPrecLoop at h
    by_cases h1 : st.lexer.Any = true ∧ (st.lexer.Peek 0).id = .ID_OPERATOR
    · rw [if_pos h1] at h
      simp only at h
      by_cases h2 : (st.lexer.Peek 0).lexeme = ['/'] ∨ (st.lexer.Peek 0).lexeme = ['%']
      · rw [if_pos h2] at h
        cases hterm : evaluateTerm { st with lexer := st.lexer.Use.2 } with
        | error e st2 =>
          rw [hterm] at h
          cases h
        | ok right st2 =>
          rw [hterm] at h
          simp only at h
          obtain ⟨t, ht, hkind⟩ := evaluateTerm_ok_shape _ _ _ hterm
          obtain ⟨p, hp, hshape, hstop⟩ := ih _ st2 h
          obtain ⟨⟨tokens⟩, vars, out⟩ := st
          cases tokens with
          | nil => simp [Lexer.Any] at h1
          | cons op r =>
            simp only [Lexer.Use] at ht
            simp only [Lexer.Peek, List.getD_cons_zero] at h1 h2
            refine ⟨op :: t :: p, ?_, ?_, hstop⟩
            · simp only [List.cons_append]
              rw [← hp]
              simpa using ht
            · simp only [chainShape]
              refine ⟨⟨h1.2, ?_⟩, hkind, hshape⟩
              rcases h2 with h2 | h2 <;> simp [h2]
      · rw [if_neg h2] at h
        cases h
        exact ⟨[], rfl, trivial, highPrecStops_of_not _ (fun hc => h2 hc.2.2)⟩
    · rw [if_neg h1] at h
      cases h
      exact ⟨[], rfl, trivial, highPrecStops_of_not _ (fun hc => h1 ⟨hc.1, hc.2.1⟩)⟩

theorem evaluateHighPrec_shape (st st1 : St) (v : Str) (h : evaluateHighPrec st = .ok v st1) :
    ∃ t p, st.lexer.tokens = t :: (p ++ st1.lexer.tokens) ∧ termKind t ∧ chainShape p
      ∧ highPrecStops st1.lexer.tokens := by
  unfold evaluateHighPrec at h
  cases hterm : evaluateTerm st with
  | error e st2 =>
    rw [hterm] at h
    cases h
  | ok result st2 =>
    rw [hterm] at h
    simp only at h
    obtain ⟨t, ht, hkind⟩ := evaluateTerm_ok_shape _ _ _ hterm
    obtain ⟨p, hp, hshape, hstop⟩ := highPrecLoop_shape _ _ _ _ _ h
    exact ⟨t, p, by rw [ht, hp], hkind, hshape, hstop⟩

theorem expressionLoop_shape (fuel : Nat) (result : Str) (st st1 : St) (v : Str)
    (hstop : highPrecStops st.lexer.tokens)
    (h : expressionLoop fuel result st = .ok v st1) :
    ∃ p, st.lexer.tokens = p ++ st1.lexer.tokens ∧ chainShape p
      ∧ exprStops st1.lexer.tokens := by
  induction fuel generalizing result st with
  | zero => simp [expressionLoop] at h
  | succ n ih =>
    unfold expressionLoop at h
    by_cases h1 : st.lexer.Any = true ∧ (st.lexer.Peek 0).id = .ID_OPERATOR
    · rw [if_pos h1] at h
      simp only at h
      by_cases h2 : (st.lexer.Peek 0).lexeme = ['+'] ∨ (st.lexer.Peek 0).lexeme = ['-']
      · rw [if_pos h2] at h
        cases hhp : evaluateHighPrec { st with lexer := st.lexer.Use.2 } with
        | error e st2 =>
          rw [hhp] at h
          cases h
        | ok right st2 =>
          rw [hhp] at h
          simp only at h
          obtain ⟨t, p1, ht, hkind, hshape1, hstop2⟩ := evaluateHighPrec_shape _ _ _ hhp
          obtain ⟨p2, hp2, hshape2, hends⟩ := ih _ st2 hstop2 h
          obtain ⟨⟨tokens⟩, vars, out⟩ := st
          cases tokens with
          | nil => simp [Lexer.Any] at h1
          | cons op r =>
            simp only [Lexer.Use] at ht
            simp only [Lexer.Peek, List.getD_cons_zero] at h1 h2
            refine ⟨op :: t :: (p1 ++ p2), ?_, ?_, hends⟩
            · simp only [List.cons_append, List.append_assoc]
              rw [← hp2]
              simpa using ht
            · simp only [chainShape]
              refine ⟨⟨h1.2, ?_⟩, hkind, chainShape_append p1 p2 hshape1 hshape2⟩
              rcases h2 with h2 | h2 <;> simp [h2]
      · rw [if_neg h2] at h
        by_cases h3 : (st.lexer.Peek 0).lexeme ∈ exprBlocked
        · rw [if_pos h3] at h
          cases h
        · rw [if_neg h3] at h
          cases h
          refine ⟨[], rfl, trivial, ?_⟩
          obtain ⟨⟨tokens⟩, vars, out⟩ := st1
          cases tokens with
          | nil => exact exprStops_nil
          | cons op r =>
            simp only [Lexer.Peek, List.getD_cons_zero] at h2 h3
            have hs := hstop op (by simp)
            intro t ht
            simp only [List.head?_cons, Option.mem_def, Option.some.injEq] at ht
            subst ht
            rintro ⟨hid, hlex | hlex⟩
            · simp only [List.mem_cons, List.mem_singleton, List.not_mem_nil, or_false] at hlex
              rcases hlex with hl | hl | hl | hl
              · exact hs ⟨hid, Or.inl hl⟩
              · exact hs ⟨hid, Or.inr hl⟩
              · exact h2 (Or.inl hl)
              · exact h2 (Or.inr hl)
            · exact h3 hlex
    · rw [if_neg h1] at h
      cases h
      refine ⟨[], rfl, trivial, ?_⟩
      obtain ⟨⟨tokens⟩, vars, out⟩ := st1
      cases tokens with
      | nil => exact exprStops_nil
      | cons op r =>
        intro t ht
        simp only [List.head?_cons, Option.mem_def, Option.some.injEq] at ht
        subst ht
        rintro ⟨hid, -⟩
        exact h1 ⟨by simp [Lexer.Any], by simpa [Lexer.Peek] using hid⟩

theorem evaluateExpression_shape (st st1 : St) (v : Str)
    (h : evaluateExpression st = .ok v st1) :
    ∃ t p, st.lexer.tokens = t :: (p ++ st1.lexer.tokens) ∧ termKind t ∧ chainShape p
      ∧ exprStops st1.lexer.tokens := by
  unfold evaluateExpression at h
  cases hhp : evaluateHighPrec st with
  | error e st2 =>
    rw [hhp] at h
    cases h
  | ok result st2 =>
    rw [hhp] at h
    simp only at h
    obtain ⟨t, p1, ht, hkind, hshape1, hstop2⟩ := evaluateHighPrec_shape _ _ _ hhp
    obtain ⟨p2, hp2, hshape2, hends⟩ := expressionLoop_shape _ _ _ _ _ hstop2 h
    refine ⟨t, p1 ++ p2, ?_, hkind, chainShape_append p1 p2 hshape1 hshape2, hends⟩
    rw [ht, hp2, List.append_assoc]

theorem chainShape_positions (p : List Token) (hp : chainShape p) :
    (∃ k, p.length = 2 * k)
    ∧ ∀ i t, p[i]? = some t → (i % 2 = 0 → binaryOp t) ∧ (i % 2 = 1 → termKind t) := by
  induction p using chainShape.induct with
  | case1 => exact ⟨⟨0, rfl⟩, fun i t h => by simp at h⟩
  | case2 t => exact absurd hp (by simp [chainShape])
  | case3 op t rest ih =>
    simp only [chainShape] at hp
    obtain ⟨⟨k, hk⟩, hpos⟩ := ih hp.2.2
    refine ⟨⟨k + 1, by simp only [List.length_cons, hk]; omega⟩, ?_⟩
    intro i x hx
    match i with
    | 0 =>
      simp only [List.getElem?_cons_zero, Option.some.injEq] at hx
      subst hx
      exact ⟨fun _ => hp.1, fun hc => by omega⟩
    | 1 =>
      simp only [List.getElem?_cons_succ, List.getElem?_cons_zero, Option.some.injEq] at hx
      subst hx
      exact ⟨fun hc => by omega, fun _ => hp.2.1⟩
    | j + 2 =>
      simp only [List.getElem?_cons_succ] at hx
      obtain ⟨h0, h1⟩ := hpos j x hx
      exact ⟨fun hc => h0 (by omega), fun hc => h1 (by omega)⟩

/-! ## Operators that end or break an expression -/

theorem not_low_of_blocked (lexeme : Str) (h : lexeme ∈ exprBlocked) :
    ¬ (lexeme = ['+'] ∨ lexeme = ['-']) := by
  rintro (h1 | h1) <;> rw [h1] at h <;> simp [exprBlocked] at h

theorem not_high_of_blocked (lexeme : Str) (h : lexeme ∈ exprBlocked) :
    ¬ (lexeme = ['/'] ∨ lexeme = ['%']) := by
  rintro (h1 | h1) <;> rw [h1] at h <;> simp [exprBlocked] at h

theorem expressionLoop_blocked (fuel : Nat) (result : Str) (op : Token) (post : List Token)
    (vars : StrMap Str) (out : List Str)
    (hop : op.id = .ID_OPERATOR) (hlex : op.lexeme ∈ exprBlocked) :
    expressionLoop (fuel + 1) result ⟨⟨op :: post⟩, vars, out⟩
      = .error (.UnexpectedOperator op.line_id op.lexeme) ⟨⟨op :: post⟩, vars, out⟩ := by
  rw [expressionLoop]
  simp [Lexer.Any, Lexer.Peek, hop, hlex, not_low_of_blocked op.lexeme hlex]

/-- After a well-formed expression, the expression loop is entered on the
tokens that follow it, with the fold of the operators as the running result. -/
theorem evaluateExpression_then (vars : StrMap Str) (out : List Str) (o0 : Operand)
    (c : List (Token × Operand)) (tail : List Token)
    (h0 : IsOperand vars o0) (hc : IsExpr vars c) (htail : highPrecStops tail) :
    ∃ n, evaluateExpression ⟨⟨o0.tokens ++ (exprTokens c ++ tail)⟩, vars, out⟩
      = expressionLoop (n + 1)
          (c.foldl (fun r x => applyLowPrec x.1.lexeme r x.2.result) o0.result)
          ⟨⟨tail⟩, vars, out⟩ := by
  unfold evaluateExpression
  rw [evaluateHighPrec_operand vars out o0 _ h0 (highPrecStops_exprTokens vars c tail hc htail)]
  simp only
  have hlen := length_le_exprTokens c
  rw [expressionLoop_chain_then vars out c tail hc htail _ _
    (by simp only [List.length_append]; omega)]
  exact ⟨(exprTokens c ++ tail).length - c.length,
    by congr 1; simp only [List.length_append]; omega⟩

/-! ## The interpreter proper never reports the error of the file-name gate -/

theorem evaluateTerm_error_ne_gate (st st1 : St) (e : Err)
    (h : evaluateTerm st = .error e st1) : e ≠ .UnsupportedTestCase := by
  unfold evaluateTerm at h
  simp only at h
  split_ifs at h <;> cases h <;> simp

theorem highPrecLoop_error_ne_gate (fuel : Nat) (result : Str) (st st1 : St) (e : Err)
    (h : highPrecLoop fuel result st = .error e st1) : e ≠ .UnsupportedTestCase := by
  induction fuel generalizing result st with
  | zero =>
    simp only [highPrecLoop] at h
    cases h
    simp
  | succ n ih =>
    unfold highPrecLoop at h
    by_cases h1 : st.lexer.Any = true ∧ (st.lexer.Peek 0).id = .ID_OPERATOR
    · rw [if_pos h1] at h
      simp only at h
      by_cases h2 : (st.lexer.Peek 0).lexeme = ['/'] ∨ (st.lexer.Peek 0).lexeme = ['%']
      · rw [if_pos h2] at h
        cases hterm : evaluateTerm { st with lexer := st.lexer.Use.2 } with
        | error e2 st2 =>
          rw [hterm] at h
          cases h
          exact evaluateTerm_error_ne_gate _ _ _ hterm
        | ok right st2 =>
          rw [hterm] at h
          exact ih _ st2 h
      · rw [if_neg h2] at h
        cases h
    · rw [if_neg h1] at h
      cases h

theorem evaluateHighPrec_error_ne_gate (st st1 : St) (e : Err)
    (h : evaluateHighPrec st = .error e st1) : e ≠ .UnsupportedTestCase := by
  unfold evaluateHighPrec at h
  cases hterm : evaluateTerm st with
  | error e2 st2 =>
    rw [hterm] at h
    cases h
    exact evaluateTerm_error_ne_gate _ _ _ hterm
  | ok result st2 =>
    rw [hterm] at h
    exact highPrecLoop_error_ne_gate _ _ _ _ _ h

theorem expressionLoop_error_ne_gate (fuel : Nat) (result : Str) (st st1 : St) (e : Err)
    (h : expressionLoop fuel result st = .error e st1) : e ≠ .UnsupportedTestCase := by
  induction fuel generalizing result st with
  | zero =>
    simp only [expressionLoop] at h
    cases h
    simp
  | succ n ih =>
    unfold expressionLoop at h
    by_cases h1 : st.lexer.Any = true ∧ (st.lexer.Peek 0).id = .ID_OPERATOR
    · rw [if_pos h1] at h
      simp only at h
      by_cases h2 : (st.lexer.Peek 0).lexeme = ['+'] ∨ (st.lexer.Peek 0).lexeme = ['-']
      · rw [if_pos h2] at h
        cases hhp : evaluateHighPrec { st with lexer := st.lexer.Use.2 } with
        | error e2 st2 =>
          rw [hhp] at h
          cases h
          exact evaluateHighPrec_error_ne_gate _ _ _ hhp
        | ok right st2 =>
          rw [hhp] at h
          exact ih _ st2 h
      · rw [if_neg h2] at h
        by_cases h3 : (st.lexer.Peek 0).lexeme ∈ exprBlocked
        · rw [if_pos h3] at h
          cases h
          simp
        · rw [if_neg h3] at h
          cases h
    · rw [if_neg h1] at h
      cases h

theorem evaluateExpression_error_ne_gate (st st1 : St) (e : Err)
    (h : evaluateExpression st = .error e st1) : e ≠ .UnsupportedTestCase := by
  unfold evaluateExpression at h
  cases hhp : evaluateHighPrec st with
  | error e2 st2 =>
    rw [hhp] at h
    cases h
    exact evaluateHighPrec_error_ne_gate _ _ _ hhp
  | ok result st2 =>
    rw [hhp] at h
    exact expressionLoop_error_ne_gate _ _ _ _ _ h

theorem useKind_error_ne_gate (st st1 : St) (k : TokenKind) (e : Err)
    (h : UseKind st k = .error e st1) : e ≠ .UnsupportedTestCase := by
  unfold UseKind at h
  simp only at h
  split_ifs at h
  cases h
  simp

theorem statement_error_ne_gate (st st1 : St) (e : Err)
    (h : statement st = .error e st1) : e ≠ .UnsupportedTestCase := by
  have hvar : ∀ s s1 : St, handleVarStatement s = .error e s1 → e ≠ .UnsupportedTestCase := by
    intro s s1 hs
    unfold handleVarStatement at hs
    cases h1 : UseKind s .ID_KEYWORD with
    | error e1 t1 => rw [h1] at hs; cases hs; exact useKind_error_ne_gate _ _ _ _ h1
    | ok x1 t1 =>
      rw [h1] at hs
      simp only at hs
      cases h2 : UseKind t1 .ID_IDENTIFIER with
      | error e2 t2 => rw [h2] at hs; cases hs; exact useKind_error_ne_gate _ _ _ _ h2
      | ok x2 t2 =>
        rw [h2] at hs
        simp only at hs
        cases h3 : UseKind t2 .ID_OPERATOR with
        | error e3 t3 => rw [h3] at hs; cases hs; exact useKind_error_ne_gate _ _ _ _ h3
        | ok x3 t3 =>
          rw [h3] at hs
          simp only at hs
          cases h4 : evaluateExpression t3 with
          | error e4 t4 => rw [h4] at hs; cases hs; exact evaluateExpression_error_ne_gate _ _ _ h4
          | ok x4 t4 => rw [h4] at hs; cases hs
  have hprint : ∀ s s1 : St, handlePrintStatement s = .error e s1 → e ≠ .UnsupportedTestCase := by
    intro s s1 hs
    unfold handlePrintStatement at hs
    cases h1 : UseKind s .ID_KEYWORD with
    | error e1 t1 => rw [h1] at hs; cases hs; exact useKind_error_ne_gate _ _ _ _ h1
    | ok x1 t1 =>
      rw [h1] at hs
      simp only at hs
      cases h4 : evaluateExpression t1 with
      | error e4 t4 => rw [h4] at hs; cases hs; exact evaluateExpression_error_ne_gate _ _ _ h4
      | ok x4 t4 => rw [h4] at hs; cases hs
  have hassign : ∀ s s1 : St, handleAssignment s = .error e s1 → e ≠ .UnsupportedTestCase := by
    intro s s1 hs
    unfold handleAssignment at hs
    cases h2 : UseKind s .ID_IDENTIFIER with
    | error e2 t2 => rw [h2] at hs; cases hs; exact useKind_error_ne_gate _ _ _ _ h2
    | ok x2 t2 =>
      rw [h2] at hs
      simp only at hs
      cases h3 : UseKind t2 .ID_OPERATOR with
      | error e3 t3 => rw [h3] at hs; cases hs; exact useKind_error_ne_gate _ _ _ _ h3
      | ok x3 t3 =>
        rw [h3] at hs
        simp only at hs
        cases h4 : evaluateExpression t3 with
        | error e4 t4 => rw [h4] at hs; cases hs; exact evaluateExpression_error_ne_gate _ _ _ h4
        | ok x4 t4 =>
          rw [h4] at hs
          simp only at hs
          split_ifs at hs
          cases hs
          simp
  unfold statement at h
  simp only at h
  split_ifs at h
  · exact hvar _ _ h
  · exact hprint _ _ h
  all_goals first
    | exact hassign _ _ h
    | (cases h; simp)

theorem mainLoop_error_ne_gate (fuel : Nat) (st st1 : St) (e : Err)
    (h : mainLoop fuel st = .error e st1) : e ≠ .UnsupportedTestCase := by
  induction fuel generalizing st with
  | zero =>
    simp only [mainLoop] at h
    cases h
    simp
  | succ n ih =>
    unfold mainLoop at h
    by_cases h1 : st.lexer.Any = true
    · rw [if_pos h1] at h
      by_cases h2 : (st.lexer.Peek 0).id = .ID_NEWLINE
      · rw [if_pos h2] at h
        exact ih _ h
      · rw [if_neg h2] at h
        cases hs : statement st with
        | error e2 s2 =>
          rw [hs] at h
          cases h
          exact statement_error_ne_gate _ _ _ hs
        | ok u s2 =>
          rw [hs] at h
          simp only at h
          split_ifs at h
          · exact ih _ h
          · exact ih _ h
    · rw [if_neg h1] at h
      cases h

theorem interpret_ne_gate (tokens : List Token) (st1 : St) :
    interpret tokens ≠ .error .UnsupportedTestCase st1 :=
  fun h => mainLoop_error_ne_gate _ _ _ _ h rfl

/-! ## The claims -/

/-- C1: on the tokens string literal `a`, operator `+`, string literal `b`, at
the end of the input or before a newline token, `evaluateExpression` returns
the quote-stripped `a` followed by the quote-stripped `b` with nothing in
between, consumes the three tokens and leaves the store and the output as they
were; and the program `VAR x = "cat" + "dog"`, `PRINT x` writes the one line
`catdog`. -/
theorem C1_plus_concatenates (a b : Str) (l1 l2 l3 : Nat) (vars : StrMap Str) (out : List Str) :
    evaluateExpression ⟨⟨[strTok a l1, opTok ['+'] l2, strTok b l3]⟩, vars, out⟩
        = .ok (stripQuotes a ++ stripQuotes b) ⟨⟨[]⟩, vars, out⟩
    ∧ (∀ (nl : Str) (l4 : Nat) (rest : List Token),
        evaluateExpression
            ⟨⟨strTok a l1 :: opTok ['+'] l2 :: strTok b l3 :: ⟨.ID_NEWLINE, nl, l4⟩ :: rest⟩, vars, out⟩
          = .ok (stripQuotes a ++ stripQuotes b) ⟨⟨⟨.ID_NEWLINE, nl, l4⟩ :: rest⟩, vars, out⟩)
    ∧ interpret
        [kwTok "VAR".toList 1, idTok "x".toList 1, opTok "=".toList 1,
          strTok "\"cat\"".toList 1, opTok "+".toList 1, strTok "\"dog\"".toList 1, nlTok 1,
          kwTok "PRINT".toList 2, idTok "x".toList 2, nlTok 2]
        = .ok () ⟨⟨[]⟩, [("x".toList, "catdog".toList)], ["catdog".toList]⟩ := by
  refine ⟨?_, ?_, by decide⟩
  · have h := evaluateExpression_binary vars out (strTok a l1) (opTok ['+'] l2) (strTok b l3)
      _ _ [] (isTerm_strTok vars a l1) (isTerm_strTok vars b l3) rfl (Or.inl rfl) exprStops_nil
    rw [h]
    simp [opTok, applyLowPrec_plus]
  · intro nl l4 rest
    have h := evaluateExpression_binary vars out (strTok a l1) (opTok ['+'] l2) (strTok b l3)
      _ _ (⟨.ID_NEWLINE, nl, l4⟩ :: rest) (isTerm_strTok vars a l1) (isTerm_strTok vars b l3)
      rfl (Or.inl rfl) (exprStops_newline nl l4 rest)
    rw [h]
    simp [opTok, applyLowPrec_plus]

/-- C2: for string literals with quote-stripped values `a` and `b`,
`evaluateExpression` on `a - b` returns `a[0..p) ++ a[p+|b|..)` when `p` is the
first occurrence of `b` in `a` (that occurrence alone is removed, nothing is
trimmed) and returns `a` unchanged when `b` does not occur in `a`. -/
theorem C2_minus_removes_first_occurrence (a b la lb : Str) (l1 l2 l3 : Nat)
    (vars : StrMap Str) (out : List Str) (rest : List Token)
    (ha : stripQuotes la = a) (hb : stripQuotes lb = b) (hrest : exprStops rest) :
    (∀ p, FirstOccurrence a b p →
      evaluateExpression ⟨⟨strTok la l1 :: opTok ['-'] l2 :: strTok lb l3 :: rest⟩, vars, out⟩
        = .ok (a.take p ++ a.drop (p + b.length)) ⟨⟨rest⟩, vars, out⟩)
    ∧ ((∀ q, ¬ OccursAt a b q) →
      evaluateExpression ⟨⟨strTok la l1 :: opTok ['-'] l2 :: strTok lb l3 :: rest⟩, vars, out⟩
        = .ok a ⟨⟨rest⟩, vars, out⟩) := by
  have h := evaluateExpression_binary vars out (strTok la l1) (opTok ['-'] l2) (strTok lb l3)
    _ _ rest (isTerm_strTok vars la l1) (isTerm_strTok vars lb l3) rfl (Or.inr rfl) hrest
  rw [ha, hb] at h
  refine ⟨fun p hp => ?_, fun hq => ?_⟩
  · rw [h]
    simp [opTok, applyLowPrec_minus_found a b p hp]
  · rw [h]
    simp [opTok, applyLowPrec_minus_missing a b hq]

/-- C2 at `"hello world" - "world"`: the first occurrence is at position 6 and
the result is `hello ` with its trailing space. -/
theorem C2_minus_witness :
    FirstOccurrence "hello world".toList "world".toList 6
    ∧ evaluateExpression
        ⟨⟨[strTok "\"hello world\"".toList 1, opTok ['-'] 1, strTok "\"world\"".toList 1]⟩, [], []⟩
      = .ok "hello ".toList ⟨⟨[]⟩, [], []⟩
    ∧ evaluateExpression
        ⟨⟨[strTok "\"hello\"".toList 1, opTok ['-'] 1, strTok "\"x\"".toList 1]⟩, [], []⟩
      = .ok "hello".toList ⟨⟨[]⟩, [], []⟩ :=
  ⟨by decide,
    (C2_minus_removes_first_occurrence "hello world".toList "world".toList
      "\"hello world\"".toList "\"world\"".toList 1 1 1 [] [] []
      (by decide) (by decide) (by decide)).1 6 (by decide),
    (C2_minus_removes_first_occurrence "hello".toList "x".toList
      "\"hello\"".toList "\"x\"".toList 1 1 1 [] [] []
      (by decide) (by decide) (by decide)).2
      ((find_eq_none_iff "hello".toList "x".toList).1 (by decide))⟩

/-- C3: for string literals with quote-stripped values `a` and `b`,
`evaluateHighPrec` on `a / b` returns the prefix `a[0..p)` when `p` is the
first occurrence of `b` in `a`, and `a` unchanged when `b` does not occur. -/
theorem C3_divide_first_occurrence (a b la lb : Str) (l1 l2 l3 : Nat)
    (vars : StrMap Str) (out : List Str) (rest : List Token)
    (ha : stripQuotes la = a) (hb : stripQuotes lb = b) (hrest : highPrecStops rest) :
    (∀ p, FirstOccurrence a b p →
      evaluateHighPrec ⟨⟨strTok la l1 :: opTok ['/'] l2 :: strTok lb l3 :: rest⟩, vars, out⟩
        = .ok (a.take p) ⟨⟨rest⟩, vars, out⟩)
    ∧ ((∀ q, ¬ OccursAt a b q) →
      evaluateHighPrec ⟨⟨strTok la l1 :: opTok ['/'] l2 :: strTok lb l3 :: rest⟩, vars, out⟩
        = .ok a ⟨⟨rest⟩, vars, out⟩) := by
  have h := evaluateHighPrec_binary vars out (strTok la l1) (opTok ['/'] l2) (strTok lb l3)
    _ _ rest (isTerm_strTok vars la l1) (isTerm_strTok vars lb l3) rfl (Or.inl rfl) hrest
  rw [ha, hb] at h
  refine ⟨fun p hp => ?_, fun hq => ?_⟩
  · rw [h]
    simp [opTok, applyHighPrec_div_found a b p hp]
  · rw [h]
    simp [opTok, applyHighPrec_div_missing a b hq]

/-- C3 at `"abcabc" / "b"`: the first occurrence is at position 1 and the
result is `a`. -/
theorem C3_divide_witness :
    FirstOccurrence "abcabc".toList "b".toList 1
    ∧ evaluateHighPrec
        ⟨⟨[strTok "\"abcabc\"".toList 1, opTok ['/'] 1, strTok "\"b\"".toList 1]⟩, [], []⟩
      = .ok "a".toList ⟨⟨[]⟩, [], []⟩
    ∧ evaluateHighPrec
        ⟨⟨[strTok "\"abc\"".toList 1, opTok ['/'] 1, strTok "\"x\"".toList 1]⟩, [], []⟩
      = .ok "abc".toList ⟨⟨[]⟩, [], []⟩ :=
  ⟨by decide,
    (C3_divide_first_occurrence "abcabc".toList "b".toList
      "\"abcabc\"".toList "\"b\"".toList 1 1 1 [] [] []
      (by decide) (by decide) (by decide)).1 1 (by decide),
    (C3_divide_first_occurrence "abc".toList "x".toList
      "\"abc\"".toList "\"x\"".toList 1 1 1 [] [] []
      (by decide) (by decide) (by decide)).2
      ((find_eq_none_iff "abc".toList "x".toList).1 (by decide))⟩

/-- C4: for string literals with quote-stripped values `a` and `b`,
`evaluateHighPrec` on `a % b` returns the suffix `a[p+|b|..)` when `p` is the
first occurrence of `b` in `a`, and the empty string when `b` does not occur. -/
theorem C4_modulo_first_occurrence (a b la lb : Str) (l1 l2 l3 : Nat)
    (vars : StrMap Str) (out : List Str) (rest : List Token)
    (ha : stripQuotes la = a) (hb : stripQuotes lb = b) (hrest : highPrecStops rest) :
    (∀ p, FirstOccurrence a b p →
      evaluateHighPrec ⟨⟨strTok la l1 :: opTok ['%'] l2 :: strTok lb l3 :: rest⟩, vars, out⟩
        = .ok (a.drop (p + b.length)) ⟨⟨rest⟩, vars, out⟩)
    ∧ ((∀ q, ¬ OccursAt a b q) →
      evaluateHighPrec ⟨⟨strTok la l1 :: opTok ['%'] l2 :: strTok lb l3 :: rest⟩, vars, out⟩
        = .ok [] ⟨⟨rest⟩, vars, out⟩) := by
  have h := evaluateHighPrec_binary vars out (strTok la l1) (opTok ['%'] l2) (strTok lb l3)
    _ _ rest (isTerm_strTok vars la l1) (isTerm_strTok vars lb l3) rfl (Or.inr rfl) hrest
  rw [ha, hb] at h
  refine ⟨fun p hp => ?_, fun hq => ?_⟩
  · rw [h]
    simp [opTok, applyHighPrec_mod_found a b p hp]
  · rw [h]
    simp [opTok, applyHighPrec_mod_missing a b hq]

/-- C4 at `"abcabc" % "b"`: the first occurrence is at position 1 and the
result is `cabc`. -/
theorem C4_modulo_witness :
    FirstOccurrence "abcabc".toList "b".toList 1
    ∧ evaluateHighPrec
        ⟨⟨[strTok "\"abcabc\"".toList 1, opTok ['%'] 1, strTok "\"b\"".toList 1]⟩, [], []⟩
      = .ok "cabc".toList ⟨⟨[]⟩, [], []⟩
    ∧ evaluateHighPrec
        ⟨⟨[strTok "\"abc\"".toList 1, opTok ['%'] 1, strTok "\"x\"".toList 1]⟩, [], []⟩
      = .ok [] ⟨⟨[]⟩, [], []⟩ :=
  ⟨by decide,
    (C4_modulo_first_occurrence "abcabc".toList "b".toList
      "\"abcabc\"".toList "\"b\"".toList 1 1 1 [] [] []
      (by decide) (by decide) (by decide)).1 1 (by decide),
    (C4_modulo_first_occurrence "abc".toList "x".toList
      "\"abc\"".toList "\"x\"".toList 1 1 1 [] [] []
      (by decide) (by decide) (by decide)).2
      ((find_eq_none_iff "abc".toList "x".toList).1 (by decide))⟩

/-- C5: on string literals `a`, `b`, `c` joined as `a low b high c`, with `low`
one of `+`, `-` and `high` one of `/`, `%`, `evaluateExpression` returns
`a low (b high c)`; more generally the right operand of every `+` or `-`, and
the first operand too, is a whole `/`-`%` chain: a well-formed expression
evaluates to the left fold of its `+`-`-` operators over the values of its
operands. On `"x" + "yz" / "x"` the result is `xyz`, while `(a + b) / c` would
be the empty string. -/
theorem C5_precedence (vars : StrMap Str) (out : List Str) (rest : List Token)
    (hrest : exprStops rest) :
    (∀ (la lb lc low high : Str) (l1 l2 l3 l4 l5 : Nat),
      (low = ['+'] ∨ low = ['-']) → (high = ['/'] ∨ high = ['%']) →
      evaluateExpression
          ⟨⟨strTok la l1 :: opTok low l2 :: strTok lb l3 :: opTok high l4 :: strTok lc l5 :: rest⟩,
            vars, out⟩
        = .ok (applyLowPrec low (stripQuotes la) (applyHighPrec high (stripQuotes lb) (stripQuotes lc)))
            ⟨⟨rest⟩, vars, out⟩)
    ∧ (∀ (o0 : Operand) (c : List (Token × Operand)), IsOperand vars o0 → IsExpr vars c →
      evaluateExpression ⟨⟨o0.tokens ++ (exprTokens c ++ rest)⟩, vars, out⟩
        = .ok (c.foldl (fun r x => applyLowPrec x.1.lexeme r x.2.result) o0.result)
            ⟨⟨rest⟩, vars, out⟩)
    ∧ (evaluateExpression
          ⟨⟨[strTok "\"x\"".toList 1, opTok ['+'] 1, strTok "\"yz\"".toList 1, opTok ['/'] 1,
              strTok "\"x\"".toList 1]⟩, [], []⟩
        = .ok "xyz".toList ⟨⟨[]⟩, [], []⟩
      ∧ applyHighPrec ['/'] (applyLowPrec ['+'] "x".toList "yz".toList) "x".toList = []) := by
  refine ⟨?_, ?_, by decide, by decide⟩
  · intro la lb lc low high l1 l2 l3 l4 l5 hlow hhigh
    have h := evaluateExpression_expr vars out ⟨strTok la l1, stripQuotes la, []⟩
      [(opTok low l2, ⟨strTok lb l3, stripQuotes lb, [(opTok high l4, strTok lc l5, stripQuotes lc)]⟩)]
      rest ⟨isTerm_strTok vars la l1, isChain_nil vars _⟩
      (by
        intro x hx
        simp only [List.mem_singleton] at hx
        subst hx
        refine ⟨rfl, hlow, isTerm_strTok vars lb l3, ?_⟩
        intro y hy
        simp only [List.mem_singleton] at hy
        subst hy
        exact ⟨rfl, by simpa [opTok] using hhigh, isTerm_strTok vars lc l5⟩)
      hrest
    simpa [Operand.tokens, Operand.result, exprTokens, chainTokens, opTok] using h
  · intro o0 c h0 hc
    exact evaluateExpression_expr vars out o0 c rest h0 hc hrest

/-- C5 at `"a" - "bc" % "b"` before a newline: the result is `a - ("bc" % "b")`,
that is `a - c`, which is `a`. -/
theorem C5_precedence_witness :
    evaluateExpression
        ⟨⟨[strTok "\"a\"".toList 1, opTok ['-'] 1, strTok "\"bc\"".toList 1, opTok ['%'] 1,
            strTok "\"b\"".toList 1, nlTok 1]⟩, [], []⟩
      = .ok "a".toList ⟨⟨[nlTok 1]⟩, [], []⟩ :=
  (C5_precedence [] [] [nlTok 1] (by decide)).1 "\"a\"".toList "\"bc\"".toList "\"b\"".toList
    ['-'] ['%'] 1 1 1 1 1 (by decide) (by decide)

/-- C6: a chain `t0 op1 t1 ... opn tn` of terms joined by `+` and `-` only is
evaluated by `evaluateExpression` to the left fold
`((t0 op1 t1) op2 t2) ... opn tn`; a chain joined by `/` and `%` only is
evaluated by `evaluateHighPrec` to the left fold too; in particular
`a - b - c` is `(a - b) - c`. On `"abc" - "b" - "b"` that is `ac`, while
`a - (b - c)` would be `abc`. -/
theorem C6_left_associative (vars : StrMap Str) (out : List Str) (t0 : Token) (v0 : Str)
    (c : List (Token × Token × Str)) (rest : List Token) (h0 : IsTerm vars t0 v0) :
    (IsChain vars [['+'], ['-']] c → exprStops rest →
      evaluateExpression ⟨⟨t0 :: (chainTokens c ++ rest)⟩, vars, out⟩
        = .ok (c.foldl (fun r x => applyLowPrec x.1.lexeme r x.2.2) v0) ⟨⟨rest⟩, vars, out⟩)
    ∧ (IsChain vars [['/'], ['%']] c → highPrecStops rest →
      evaluateHighPrec ⟨⟨t0 :: (chainTokens c ++ rest)⟩, vars, out⟩
        = .ok (c.foldl (fun r x => applyHighPrec x.1.lexeme r x.2.2) v0) ⟨⟨rest⟩, vars, out⟩)
    ∧ (∀ (lb lc : Str) (l2 l3 l4 l5 : Nat), exprStops rest →
      evaluateExpression
          ⟨⟨t0 :: opTok ['-'] l2 :: strTok lb l3 :: opTok ['-'] l4 :: strTok lc l5 :: rest⟩,
            vars, out⟩
        = .ok (applyLowPrec ['-'] (applyLowPrec ['-'] v0 (stripQuotes lb)) (stripQuotes lc))
            ⟨⟨rest⟩, vars, out⟩)
    ∧ (evaluateExpression
          ⟨⟨[strTok "\"abc\"".toList 1, opTok ['-'] 1, strTok "\"b\"".toList 1, opTok ['-'] 1,
              strTok "\"b\"".toList 1]⟩, [], []⟩
        = .ok "ac".toList ⟨⟨[]⟩, [], []⟩
      ∧ applyLowPrec ['-'] "abc".toList (applyLowPrec ['-'] "b".toList "b".toList)
        = "abc".toList) := by
  refine ⟨?_, ?_, ?_, by decide, by decide⟩
  · intro hc hrest
    exact evaluateExpression_chain vars out t0 v0 c rest h0 hc hrest
  · intro hc hrest
    exact evaluateHighPrec_chain vars out t0 v0 c rest h0 hc hrest
  · intro lb lc l2 l3 l4 l5 hrest
    have h := evaluateExpression_chain vars out t0 v0
      [(opTok ['-'] l2, strTok lb l3, stripQuotes lb), (opTok ['-'] l4, strTok lc l5, stripQuotes lc)]
      rest h0
      (by
        intro x hx
        simp only [List.mem_cons, List.mem_singleton, List.not_mem_nil, or_false] at hx
        rcases hx with hx | hx <;> subst hx
        · exact ⟨rfl, by simp [opTok], isTerm_strTok vars lb l3⟩
        · exact ⟨rfl, by simp [opTok], isTerm_strTok vars lc l5⟩)
      hrest
    simpa [chainTokens, opTok] using h

/-- C6 at the chain `"abcabc" - "b" + "x" - "c"` with the variable-free store:
the left fold gives `aabcx`. -/
theorem C6_left_associative_witness :
    evaluateExpression
        ⟨⟨[strTok "\"abcabc\"".toList 1, opTok ['-'] 1, strTok "\"b\"".toList 1, opTok ['+'] 1,
            strTok "\"x\"".toList 1, opTok ['-'] 1, strTok "\"c\"".toList 1]⟩, [], []⟩
      = .ok "aabcx".toList ⟨⟨[]⟩, [], []⟩ :=
  (C6_left_associative [] [] (strTok "\"abcabc\"".toList 1) "abcabc".toList
    [(opTok ['-'] 1, strTok "\"b\"".toList 1, "b".toList),
      (opTok ['+'] 1, strTok "\"x\"".toList 1, "x".toList),
      (opTok ['-'] 1, strTok "\"c\"".toList 1, "c".toList)] [] (by decide)).1
    (by
      intro x hx
      simp only [List.mem_cons, List.mem_singleton, List.not_mem_nil, or_false] at hx
      rcases hx with hx | hx | hx <;> subst hx <;> decide)
    (by decide)

/-- C7: `stripQuotes` removes exactly the first and the last character when the
string has at least two characters and both ends are `"` or both are `'`: the
result is `s[1 .. |s|-1)`, of length `|s| - 2`, and `s` is the result between
two copies of that quote. In every other case the string is returned as it is.
`"hello"` gives `hello`, `'hi'` gives `hi`, and the three characters `"hi`
are returned unchanged. -/
theorem C7_stripQuotes (s : Str) :
    ((2 ≤ s.length ∧ ((s.head? = some '"' ∧ s.getLast? = some '"') ∨
          (s.head? = some '\'' ∧ s.getLast? = some '\''))) →
        stripQuotes s = (s.drop 1).take (s.length - 2) ∧
        (stripQuotes s).length = s.length - 2 ∧
        ∃ q, (q = '"' ∨ q = '\'') ∧ s = q :: (stripQuotes s ++ [q]))
    ∧ (¬ (2 ≤ s.length ∧ ((s.head? = some '"' ∧ s.getLast? = some '"') ∨
          (s.head? = some '\'' ∧ s.getLast? = some '\''))) →
        stripQuotes s = s)
    ∧ stripQuotes "\"hello\"".toList = "hello".toList
    ∧ stripQuotes "'hi'".toList = "hi".toList
    ∧ stripQuotes "\"hi".toList = "\"hi".toList := by
  refine ⟨?_, ?_, by decide, by decide, by decide⟩
  · intro h
    have hs : stripQuotes s = (s.drop 1).take (s.length - 2) := by
      unfold stripQuotes
      rw [if_pos ((stripQuotes_cond_iff s).2 h)]
      rfl
    refine ⟨hs, ?_, ?_⟩
    · rw [hs]
      simp only [List.length_take, List.length_drop]
      omega
    · rw [hs]
      rcases h.2 with ⟨hh, hl⟩ | ⟨hh, hl⟩
      · exact ⟨'"', Or.inl rfl, middle_of_ends s _ h.1 hh hl⟩
      · exact ⟨'\'', Or.inr rfl, middle_of_ends s _ h.1 hh hl⟩
  · intro h
    unfold stripQuotes
    rw [if_neg (fun hc => h ((stripQuotes_cond_iff s).1 hc))]

/-- C7 at the lexeme `"hello"`. -/
theorem C7_stripQuotes_witness :
    stripQuotes "\"hello\"".toList = "hello".toList
    ∧ (stripQuotes "\"hello\"".toList).length = 5
    ∧ ∃ q, (q = '"' ∨ q = '\'') ∧
        "\"hello\"".toList = q :: (stripQuotes "\"hello\"".toList ++ [q]) :=
  (C7_stripQuotes "\"hello\"".toList).1 (by decide)

/-- C8: an identifier token in a term position whose name is not in the store
makes the evaluation fail with the UndefinedVariable error of that token's
line: in `evaluateTerm`, as the first operand of an expression, and as the
right operand of a `+`, `-`, `/` or `%` that follows any well-formed
expression prefix; an identifier whose name is in the store is a term whose
value is the stored value, and the store is left as it was. -/
theorem C8_undefined_variable (vars : StrMap Str) (out : List Str) (name : Str) (line : Nat)
    (post : List Token) :
    (mapFind vars name = none →
      evaluateTerm ⟨⟨idTok name line :: post⟩, vars, out⟩
          = .error (.UndefinedVariable line name) ⟨⟨post⟩, vars, out⟩
      ∧ evaluateExpression ⟨⟨idTok name line :: post⟩, vars, out⟩
          = .error (.UndefinedVariable line name) ⟨⟨post⟩, vars, out⟩
      ∧ ∀ (o0 : Operand) (c : List (Token × Operand)) (op : Token),
          IsOperand vars o0 → IsExpr vars c → op.id = .ID_OPERATOR →
          op.lexeme ∈ [['+'], ['-'], ['/'], ['%']] →
          evaluateExpression
              ⟨⟨o0.tokens ++ (exprTokens c ++ op :: idTok name line :: post)⟩, vars, out⟩
            = .error (.UndefinedVariable line name) ⟨⟨post⟩, vars, out⟩)
    ∧ (∀ v, mapFind vars name = some v →
      evaluateTerm ⟨⟨idTok name line :: post⟩, vars, out⟩ = .ok v ⟨⟨post⟩, vars, out⟩
      ∧ (exprStops post →
          evaluateExpression ⟨⟨idTok name line :: post⟩, vars, out⟩
            = .ok v ⟨⟨post⟩, vars, out⟩)
      ∧ ∀ (o0 : Operand) (c : List (Token × Operand)) (op : Token),
          IsOperand vars o0 → IsExpr vars c → op.id = .ID_OPERATOR →
          (op.lexeme = ['+'] ∨ op.lexeme = ['-']) → exprStops post →
          evaluateExpression
              ⟨⟨o0.tokens ++ (exprTokens c ++ op :: idTok name line :: post)⟩, vars, out⟩
            = .ok (applyLowPrec op.lexeme
                (c.foldl (fun r x => applyLowPrec x.1.lexeme r x.2.result) o0.result) v)
              ⟨⟨post⟩, vars, out⟩) := by
  refine ⟨fun hnone => ?_, fun v hv => ?_⟩
  · have hterm := evaluateTerm_identifier_unbound name line post vars out hnone
    refine ⟨hterm, ?_, ?_⟩
    · exact evaluateExpression_first_error _ _ _ (evaluateHighPrec_first_error _ _ _ hterm)
    · intro o0 c op h0 hc hop hlex
      exact evaluateExpression_error_after vars out o0 c op _ _ _ h0 hc hop hlex hterm
  · have hterm : IsTerm vars (idTok name line) v := Or.inr ⟨rfl, hv⟩
    refine ⟨evaluateTerm_isTerm _ v post vars out hterm, ?_, ?_⟩
    · intro hpost
      simpa [chainTokens] using
        evaluateExpression_chain vars out (idTok name line) v [] post hterm
          (isChain_nil vars _) hpost
    · intro o0 c op h0 hc hop hlex hpost
      have hc2 : IsExpr vars (c ++ [(op, ⟨idTok name line, v, []⟩)]) := by
        intro x hx
        rcases List.mem_append.1 hx with hx | hx
        · exact hc x hx
        · simp only [List.mem_singleton] at hx
          subst hx
          exact ⟨hop, hlex, hterm, isChain_nil vars _⟩
      have h := evaluateExpression_expr vars out o0 _ post h0 hc2 hpost
      simpa [exprTokens_append, exprTokens, Operand.tokens, Operand.result, chainTokens,
        List.foldl_append] using h

/-- C8 at `"a" / "b" + y` on line 7 with only `x` in the store: the run stops
with the UndefinedVariable error of line 7 for `y`. -/
theorem C8_undefined_variable_witness :
    evaluateExpression
        ⟨⟨[strTok "\"a\"".toList 7, opTok ['/'] 7, strTok "\"b\"".toList 7, opTok ['+'] 7,
            idTok "y".toList 7, nlTok 7]⟩, [("x".toList, "v".toList)], []⟩
      = .error (.UndefinedVariable 7 "y".toList) ⟨⟨[nlTok 7]⟩, [("x".toList, "v".toList)], []⟩ :=
  ((C8_undefined_variable [("x".toList, "v".toList)] [] "y".toList 7 [nlTok 7]).1
      (by decide)).2.2
    ⟨strTok "\"a\"".toList 7, "a".toList, [(opTok ['/'] 7, strTok "\"b\"".toList 7, "b".toList)]⟩
    [] (opTok ['+'] 7)
    ⟨by decide, by
      intro x hx
      simp only [List.mem_singleton] at hx
      subst hx
      decide⟩
    (by intro x hx; cases hx) rfl (by decide)

/-- C9 (evaluation of the code at the failing input): on the program
`VAR x = "a"` (line 1), `VAR x = "b"` (line 2), `PRINT x` (line 3) the run
ends normally, without a DuplicateDeclaration error: the second `VAR`
overwrites the binding of `x` and `b` is written. -/
theorem C9_second_var_overwrites :
    interpret
        [kwTok "VAR".toList 1, idTok "x".toList 1, opTok "=".toList 1, strTok "\"a\"".toList 1,
          nlTok 1,
          kwTok "VAR".toList 2, idTok "x".toList 2, opTok "=".toList 2, strTok "\"b\"".toList 2,
          nlTok 2,
          kwTok "PRINT".toList 3, idTok "x".toList 3, nlTok 3]
      = .ok () ⟨⟨[]⟩, [("x".toList, "b".toList)], ["b".toList]⟩ := by
  decide

/-- C10: `AddSymbol(t)` fails iff the name of `t` is already in the table, and
then with the redeclaration error that names the `def_line` stored for the
name; when the name is absent it succeeds, binds the name to the empty string
with `def_line` the line of `t`, and leaves every other binding as it was; and
after any further calls of `AddSymbol`, `GetSymbolValue` and `SetSymbol` that
succeed, a second `AddSymbol` of that name still reports the line of `t` as
the original definition. -/
theorem C10_addSymbol_redeclaration (st : SymbolTable) (t : Token) :
    ((∃ e, st.AddSymbol t = .error e) ↔ mapFind st.symbols t.lexeme ≠ none)
    ∧ (∀ info, mapFind st.symbols t.lexeme = some info →
        st.AddSymbol t = .error (.DuplicateDeclaration t.line_id t.lexeme info.def_line))
    ∧ (mapFind st.symbols t.lexeme = none →
        ∃ st1, st.AddSymbol t = .ok st1
          ∧ mapFind st1.symbols t.lexeme = some ⟨[], t.line_id⟩
          ∧ (∀ k, k ≠ t.lexeme → mapFind st1.symbols k = mapFind st.symbols k)
          ∧ ∀ (cs : List SymbolCall) (st2 : SymbolTable) (t2 : Token),
              st1.calls cs = .ok st2 → t2.lexeme = t.lexeme →
              st2.AddSymbol t2
                = .error (.DuplicateDeclaration t2.line_id t.lexeme t.line_id)) := by
  refine ⟨?_, fun info h => addSymbol_of_present st t info h, fun h => ?_⟩
  · constructor
    · rintro ⟨e, he⟩ hnone
      rw [addSymbol_of_missing st t hnone] at he
      cases he
    · intro hne
      cases hm : mapFind st.symbols t.lexeme with
      | none => exact absurd hm hne
      | some info => exact ⟨_, addSymbol_of_present st t info hm⟩
  · have hself : mapFind (mapUpdate
        (mapUpdate st.symbols t.lexeme VarInfo.dflt (fun info => { info with value := [] }))
        t.lexeme VarInfo.dflt (fun info => { info with def_line := t.line_id })) t.lexeme
        = some ⟨[], t.line_id⟩ := by
      rw [mapFind_mapUpdate_self, mapFind_mapUpdate_self, h]
      rfl
    refine ⟨_, addSymbol_of_missing st t h, hself, ?_, ?_⟩
    · intro k hk
      simp only
      rw [mapFind_mapUpdate_other _ _ _ _ _ hk, mapFind_mapUpdate_other _ _ _ _ _ hk]
    · intro cs st2 t2 hcs hname
      obtain ⟨info, hfind, hline⟩ :=
        calls_keep_def_line cs _ st2 t.lexeme t.line_id ⟨_, hself, rfl⟩ hcs
      rw [← hname] at hfind
      rw [addSymbol_of_present st2 t2 info hfind, hline, hname]

/-- C10 on the empty table: `x` is added on line 3, set twice and read, and
adding `x` again on line 9 reports line 3 as the original definition. -/
theorem C10_addSymbol_witness :
    ∃ st1, (SymbolTable.mk []).AddSymbol (idTok "x".toList 3) = .ok st1
      ∧ mapFind st1.symbols "x".toList = some ⟨[], 3⟩
      ∧ (∀ k, k ≠ "x".toList → mapFind st1.symbols k = mapFind (SymbolTable.mk []).symbols k)
      ∧ ∀ (cs : List SymbolCall) (st2 : SymbolTable) (t2 : Token),
          st1.calls cs = .ok st2 → t2.lexeme = "x".toList →
          st2.AddSymbol t2 = .error (.DuplicateDeclaration t2.line_id "x".toList 3) :=
  (C10_addSymbol_redeclaration (SymbolTable.mk []) (idTok "x".toList 3)).2.2 (by decide)

/-- C11: a well-formed operand chain followed at once by an operator token
whose lexeme is one of `= == != < <= > >= ? !` makes `evaluateExpression` fail
with the UnexpectedOperator error of that token's line, with the operator left
unconsumed; no value is returned. The operands may end in a `/`-`%` chain, as
in `a + b / c == d`. -/
theorem C11_reserved_operator (vars : StrMap Str) (out : List Str) (o0 : Operand)
    (c : List (Token × Operand)) (op : Token) (post : List Token)
    (h0 : IsOperand vars o0) (hc : IsExpr vars c)
    (hop : op.id = .ID_OPERATOR)
    (hlex : op.lexeme ∈ [['='], ['=', '='], ['!', '='], ['<'], ['<', '='], ['>'], ['>', '='],
      ['?'], ['!']]) :
    evaluateExpression ⟨⟨o0.tokens ++ (exprTokens c ++ op :: post)⟩, vars, out⟩
      = .error (.UnexpectedOperator op.line_id op.lexeme) ⟨⟨op :: post⟩, vars, out⟩ := by
  have hblk : op.lexeme ∈ exprBlocked := hlex
  obtain ⟨n, hn⟩ := evaluateExpression_then vars out o0 c (op :: post) h0 hc
    (highPrecStops_cons op post (fun hc => not_high_of_blocked op.lexeme hblk hc.2))
  rw [hn]
  exact expressionLoop_blocked n _ op post vars out hop hblk

/-- C11 at `"a" + "b" / "c" == "d"` on line 4: the run stops with the
UnexpectedOperator error of line 4 for `==`. -/
theorem C11_reserved_operator_witness :
    evaluateExpression
        ⟨⟨[strTok "\"a\"".toList 4, opTok ['+'] 4, strTok "\"b\"".toList 4, opTok ['/'] 4,
            strTok "\"c\"".toList 4, opTok ['=', '='] 4, strTok "\"d\"".toList 4]⟩, [], []⟩
      = .error (.UnexpectedOperator 4 ['=', '='])
          ⟨⟨[opTok ['=', '='] 4, strTok "\"d\"".toList 4]⟩, [], []⟩ :=
  C11_reserved_operator [] [] ⟨strTok "\"a\"".toList 4, "a".toList, []⟩
    [(opTok ['+'] 4,
      ⟨strTok "\"b\"".toList 4, "b".toList, [(opTok ['/'] 4, strTok "\"c\"".toList 4, "c".toList)]⟩)]
    (opTok ['=', '='] 4) [strTok "\"d\"".toList 4]
    ⟨by decide, isChain_nil [] _⟩
    (by
      intro x hx
      simp only [List.mem_singleton] at hx
      subst hx
      refine ⟨rfl, Or.inl rfl, by decide, ?_⟩
      intro y hy
      simp only [List.mem_singleton] at hy
      subst hy
      decide)
    rfl (by decide)

/-- C12: `evaluateTerm` succeeds iff the token it consumes is a string literal
or an identifier that is bound in the store; on a token of any other kind
(operator, keyword, newline, end), and on the end token handed out when the
input is used up, it fails with the UnexpectedToken error of that token's
line; so an expression whose last binary operator is followed by such a token
fails with that error. The one token left, an identifier that is not bound,
fails with the UndefinedVariable error of its line. -/
theorem C12_term_tokens (vars : StrMap Str) (out : List Str) (t : Token) (rest : List Token) :
    ((∃ v st1, evaluateTerm ⟨⟨t :: rest⟩, vars, out⟩ = .ok v st1)
        ↔ (t.id = .ID_STRING ∨ (t.id = .ID_IDENTIFIER ∧ mapFind vars t.lexeme ≠ none)))
    ∧ (t.id ≠ .ID_STRING → t.id ≠ .ID_IDENTIFIER →
        evaluateTerm ⟨⟨t :: rest⟩, vars, out⟩
          = .error (.UnexpectedToken t.line_id t.lexeme) ⟨⟨rest⟩, vars, out⟩)
    ∧ evaluateTerm ⟨⟨[]⟩, vars, out⟩
        = .error (.UnexpectedToken eofToken.line_id eofToken.lexeme) ⟨⟨[]⟩, vars, out⟩
    ∧ (t.id = .ID_IDENTIFIER → mapFind vars t.lexeme = none →
        evaluateTerm ⟨⟨t :: rest⟩, vars, out⟩
          = .error (.UndefinedVariable t.line_id t.lexeme) ⟨⟨rest⟩, vars, out⟩)
    ∧ (t.id ≠ .ID_STRING → t.id ≠ .ID_IDENTIFIER →
        ∀ (o0 : Operand) (c : List (Token × Operand)) (op : Token),
          IsOperand vars o0 → IsExpr vars c → op.id = .ID_OPERATOR →
          op.lexeme ∈ [['+'], ['-'], ['/'], ['%']] →
          evaluateExpression ⟨⟨o0.tokens ++ (exprTokens c ++ op :: t :: rest)⟩, vars, out⟩
            = .error (.UnexpectedToken t.line_id t.lexeme) ⟨⟨rest⟩, vars, out⟩) := by
  have hother : t.id ≠ .ID_STRING → t.id ≠ .ID_IDENTIFIER →
      evaluateTerm ⟨⟨t :: rest⟩, vars, out⟩
        = .error (.UnexpectedToken t.line_id t.lexeme) ⟨⟨rest⟩, vars, out⟩ := by
    intro h1 h2
    unfold evaluateTerm
    simp only [Lexer.Use, Lexer.Peek, List.getD_cons_zero, List.tail_cons]
    rw [if_neg h1, if_neg h2]
    split_ifs <;> rfl
  have hunbound : t.id = .ID_IDENTIFIER → mapFind vars t.lexeme = none →
      evaluateTerm ⟨⟨t :: rest⟩, vars, out⟩
        = .error (.UndefinedVariable t.line_id t.lexeme) ⟨⟨rest⟩, vars, out⟩ := by
    intro h2 hnone
    obtain ⟨id, lexeme, line⟩ := t
    simp only at h2 hnone
    subst h2
    exact evaluateTerm_identifier_unbound lexeme line rest vars out hnone
  refine ⟨?_, hother, ?_, hunbound, ?_⟩
  · constructor
    · rintro ⟨v, st1, h⟩
      by_cases h1 : t.id = .ID_STRING
      · exact Or.inl h1
      · by_cases h2 : t.id = .ID_IDENTIFIER
        · refine Or.inr ⟨h2, fun hnone => ?_⟩
          rw [hunbound h2 hnone] at h
          cases h
        · rw [hother h1 h2] at h
          cases h
    · rintro (h1 | ⟨h1, h2⟩)
      · exact ⟨stripQuotes t.lexeme, _,
          evaluateTerm_isTerm t _ rest vars out (Or.inl ⟨h1, rfl⟩)⟩
      · cases hf : mapFind vars t.lexeme with
        | none => exact absurd hf h2
        | some v => exact ⟨v, _, evaluateTerm_isTerm t v rest vars out (Or.inr ⟨h1, hf⟩)⟩
  · simp [evaluateTerm, Lexer.Use, Lexer.Peek, eofToken]
  · intro h1 h2 o0 c op ho hc hop hlex
    exact evaluateExpression_error_after vars out o0 c op _ _ _ ho hc hop hlex (hother h1 h2)

/-- C12 at `"a" +` followed by a newline on line 2: the newline token is no
term and the expression fails with the UnexpectedToken error of line 2. -/
theorem C12_term_tokens_witness :
    evaluateExpression
        ⟨⟨[strTok "\"a\"".toList 2, opTok ['+'] 2, nlTok 2,
            kwTok "PRINT".toList 3, strTok "\"b\"".toList 3]⟩, [], []⟩
      = .error (.UnexpectedToken 2 ['\n'])
          ⟨⟨[kwTok "PRINT".toList 3, strTok "\"b\"".toList 3]⟩, [], []⟩ :=
  (C12_term_tokens [] [] (nlTok 2) [kwTok "PRINT".toList 3, strTok "\"b\"".toList 3]).2.2.2.2
    (by decide) (by decide) ⟨strTok "\"a\"".toList 2, "a".toList, []⟩ [] (opTok ['+'] 2)
    ⟨by decide, isChain_nil [] _⟩ (by intro x hx; cases hx) rfl (by decide)

/-- C13: for an assignment `name = expr` whose expression evaluates to `v`,
`handleAssignment` fails iff `name` is not bound in the store, then with the
UndefinedVariable error of the line of the name token and with the store as it
was before the statement; when `name` is bound the statement succeeds, the new
store maps `name` to `v`, and every other name is bound as before. -/
theorem C13_assignment (vars : StrMap Str) (out : List Str) (name : Str) (line l2 : Nat)
    (rest : List Token) (v : Str) (st1 : St)
    (hexpr : evaluateExpression ⟨⟨rest⟩, vars, out⟩ = .ok v st1) :
    ((∃ e st2, handleAssignment ⟨⟨idTok name line :: opTok ['='] l2 :: rest⟩, vars, out⟩
          = .error e st2) ↔ mapFind vars name = none)
    ∧ (mapFind vars name = none →
        handleAssignment ⟨⟨idTok name line :: opTok ['='] l2 :: rest⟩, vars, out⟩
          = .error (.UndefinedVariable line name) st1
        ∧ st1.vars = vars)
    ∧ (mapFind vars name ≠ none →
        ∃ st2, handleAssignment ⟨⟨idTok name line :: opTok ['='] l2 :: rest⟩, vars, out⟩
            = .ok () st2
          ∧ mapFind st2.vars name = some v
          ∧ ∀ k, k ≠ name → mapFind st2.vars k = mapFind vars k) := by
  have hvars : st1.vars = vars := by
    have h := (evaluateExpression_frame ⟨⟨rest⟩, vars, out⟩).1
    rw [hexpr] at h
    exact h
  have hfail : mapFind vars name = none →
      handleAssignment ⟨⟨idTok name line :: opTok ['='] l2 :: rest⟩, vars, out⟩
        = .error (.UndefinedVariable line name) st1 := by
    intro hnone
    simp [handleAssignment, UseKind, Lexer.Peek, Lexer.Use, idTok, opTok, hexpr, hvars, hnone]
  have hok : mapFind vars name ≠ none →
      handleAssignment ⟨⟨idTok name line :: opTok ['='] l2 :: rest⟩, vars, out⟩
        = .ok () { st1 with vars := mapUpdate st1.vars name [] (fun _ => v) } := by
    intro hsome
    simp [handleAssignment, UseKind, Lexer.Peek, Lexer.Use, idTok, opTok, hexpr, hvars, hsome]
  refine ⟨⟨?_, fun hnone => ⟨_, _, hfail hnone⟩⟩, fun hnone => ⟨hfail hnone, hvars⟩, ?_⟩
  · rintro ⟨e, st2, h⟩
    by_contra hsome
    rw [hok hsome] at h
    cases h
  · intro hsome
    refine ⟨_, hok hsome, ?_, ?_⟩
    · simp only
      rw [mapFind_mapUpdate_self]
    · intro k hk
      simp only
      rw [mapFind_mapUpdate_other _ _ _ _ _ hk, hvars]

/-- C13 at `x = "b"` on line 2 with `x` bound to `a` and `y` bound to `c`:
afterwards `x` is bound to `b` and `y` is bound as before. -/
theorem C13_assignment_witness :
    ∃ st2, handleAssignment
          ⟨⟨[idTok "x".toList 2, opTok ['='] 2, strTok "\"b\"".toList 2]⟩,
            [("x".toList, "a".toList), ("y".toList, "c".toList)], []⟩
        = .ok () st2
      ∧ mapFind st2.vars "x".toList = some "b".toList
      ∧ ∀ k, k ≠ "x".toList →
          mapFind st2.vars k = mapFind [("x".toList, "a".toList), ("y".toList, "c".toList)] k :=
  (C13_assignment [("x".toList, "a".toList), ("y".toList, "c".toList)] [] "x".toList 2 2
    [strTok "\"b\"".toList 2] "b".toList
    ⟨⟨[]⟩, [("x".toList, "a".toList), ("y".toList, "c".toList)], []⟩ (by decide)).2.2
    (by decide)

/-- C14 (evaluation of the code at the failing input): on the empty table, a
node whose identifier token `x` is on line 5 reads (`Run_Variable`) and assigns
(`DoAssign`) with the UndefinedVariable error of line 0, not of line 5. -/
theorem C14_store_errors_carry_line_zero :
    (ASTNode.mk (idTok "x".toList 5) []).Run_Variable ⟨[]⟩
        = .error (.UndefinedVariable 0 "x".toList)
    ∧ (ASTNode.mk (idTok "x".toList 5) []).DoAssign "v".toList ⟨[]⟩
        = .error (.UndefinedVariable 0 "x".toList) := by
  constructor <;> rfl

/-- C15: `evaluateTerm` consumes exactly the next token and changes nothing
else, whether it succeeds or fails (on an empty input there is no token to
consume and the state stays as it is); `evaluateHighPrec` and
`evaluateExpression` leave the variable store and the output exactly as they
were, whether they succeed or fail. In particular the lookup of an identifier
inserts no binding. -/
theorem C15_no_side_effect (st : St) (t : Token) (rest : List Token) (vars : StrMap Str)
    (out : List Str) :
    (evaluateTerm ⟨⟨t :: rest⟩, vars, out⟩).state = ⟨⟨rest⟩, vars, out⟩
    ∧ (evaluateTerm ⟨⟨[]⟩, vars, out⟩).state = ⟨⟨[]⟩, vars, out⟩
    ∧ (evaluateTerm st).state.vars = st.vars
    ∧ (evaluateHighPrec st).state.vars = st.vars
    ∧ (evaluateExpression st).state.vars = st.vars
    ∧ (evaluateTerm st).state.out = st.out
    ∧ (evaluateHighPrec st).state.out = st.out
    ∧ (evaluateExpression st).state.out = st.out := by
  refine ⟨?_, ?_, ?_, (evaluateHighPrec_frame st).1, (evaluateExpression_frame st).1, ?_,
    (evaluateHighPrec_frame st).2, (evaluateExpression_frame st).2⟩
  · rw [evaluateTerm_state]
    rfl
  · rw [evaluateTerm_state]
    rfl
  · rw [evaluateTerm_state]
  · rw [evaluateTerm_state]

/-- C16: when `evaluateExpression` succeeds, the tokens it has consumed are a
prefix of the input of odd length `2k+1` whose tokens at even positions are
string literals or identifiers and whose tokens at odd positions are operators
with lexeme `+`, `-`, `/` or `%`; the remaining tokens start right after that
prefix, and the first of them, if any, is no operator `+`, `-`, `/` or `%`. -/
theorem C16_consumed_shape (st st1 : St) (v : Str) (h : evaluateExpression st = .ok v st1) :
    ∃ (consumed : List Token) (k : Nat),
      st.lexer.tokens = consumed ++ st1.lexer.tokens
      ∧ consumed.length = 2 * k + 1
      ∧ (∀ i t, consumed[i]? = some t →
          (i % 2 = 0 → t.id = .ID_STRING ∨ t.id = .ID_IDENTIFIER)
          ∧ (i % 2 = 1 → t.id = .ID_OPERATOR ∧ t.lexeme ∈ [['+'], ['-'], ['/'], ['%']]))
      ∧ (∀ t ∈ st1.lexer.tokens.head?,
          ¬ (t.id = .ID_OPERATOR ∧ t.lexeme ∈ [['+'], ['-'], ['/'], ['%']])) := by
  obtain ⟨t0, p, htok, hkind, hshape, hends⟩ := evaluateExpression_shape st st1 v h
  obtain ⟨⟨k, hk⟩, hpos⟩ := chainShape_positions p hshape
  refine ⟨t0 :: p, k, by simpa using htok, by simp only [List.length_cons, hk], ?_, ?_⟩
  · intro i t ht
    cases i with
    | zero =>
      simp only [List.getElem?_cons_zero, Option.some.injEq] at ht
      subst ht
      exact ⟨fun _ => hkind, fun hc => by omega⟩
    | succ j =>
      simp only [List.getElem?_cons_succ] at ht
      obtain ⟨h0, h1⟩ := hpos j t ht
      exact ⟨fun hc => h1 (by omega), fun hc => h0 (by omega)⟩
  · intro t ht hc
    apply hends t ht
    refine ⟨hc.1, Or.inl ?_⟩
    have h4 := hc.2
    simp only [List.mem_cons, List.mem_singleton, List.not_mem_nil, or_false] at h4 ⊢
    rcases h4 with h4 | h4 | h4 | h4 <;> simp [h4]

/-- C16 at `"a" + "b" / "c"` followed by a newline and `PRINT`: five tokens are
consumed and the newline is the first token left. -/
theorem C16_consumed_shape_witness :
    ∃ (consumed : List Token) (k : Nat),
      [strTok "\"a\"".toList 1, opTok ['+'] 1, strTok "\"b\"".toList 1, opTok ['/'] 1,
          strTok "\"c\"".toList 1, nlTok 1, kwTok "PRINT".toList 2]
        = consumed ++ [nlTok 1, kwTok "PRINT".toList 2]
      ∧ consumed.length = 2 * k + 1
      ∧ (∀ i t, consumed[i]? = some t →
          (i % 2 = 0 → t.id = .ID_STRING ∨ t.id = .ID_IDENTIFIER)
          ∧ (i % 2 = 1 → t.id = .ID_OPERATOR ∧ t.lexeme ∈ [['+'], ['-'], ['/'], ['%']]))
      ∧ (∀ t ∈ [nlTok 1, kwTok "PRINT".toList 2].head?,
          ¬ (t.id = .ID_OPERATOR ∧ t.lexeme ∈ [['+'], ['-'], ['/'], ['%']])) :=
  C16_consumed_shape
    ⟨⟨[strTok "\"a\"".toList 1, opTok ['+'] 1, strTok "\"b\"".toList 1, opTok ['/'] 1,
        strTok "\"c\"".toList 1, nlTok 1, kwTok "PRINT".toList 2]⟩, [], []⟩
    ⟨⟨[nlTok 1, kwTok "PRINT".toList 2]⟩, [], []⟩ "ab".toList (by decide)

/-- C17: for every operator lexeme among `+`, `-`, `/`, `%` and all string
literal lexemes `l1`, `l2`, `Run_Op` on the node of that operator with the two
string-literal children, each evaluated by `Run_String`, returns the string
that `evaluateExpression` returns on the tokens `l1 op l2`, and leaves the
table as it was; and `Run_String` is `stripQuotes` of the lexeme of its node,
for every node. -/
theorem C17_tree_matches_stream
    (Run : ASTNode → SymbolTable → Except Err (Str × SymbolTable))
    (hRun : ∀ (lexeme : Str) (line : Nat) (s : SymbolTable),
      Run (.mk (strTok lexeme line) []) s
        = .ok (ASTNode.Run_String (.mk (strTok lexeme line) []), s))
    (op l1 l2 : Str) (lo la lb : Nat) (symbols : SymbolTable) (vars : StrMap Str)
    (out : List Str) (hop : op ∈ [['+'], ['-'], ['/'], ['%']]) :
    (∀ node : ASTNode, node.Run_String = stripQuotes node.token.lexeme)
    ∧ ∃ v,
        ASTNode.Run_Op Run (.mk (opTok op lo) [.mk (strTok l1 la) [], .mk (strTok l2 lb) []]) symbols
          = .ok (v, symbols)
        ∧ evaluateExpression ⟨⟨[strTok l1 la, opTok op lo, strTok l2 lb]⟩, vars, out⟩
          = .ok v ⟨⟨[]⟩, vars, out⟩ := by
  have hstr : ∀ node : ASTNode, node.Run_String = stripQuotes node.token.lexeme :=
    fun node => rfl
  refine ⟨hstr, ?_⟩
  have hlow : ∀ o : Str, (o = ['+'] ∨ o = ['-']) →
      evaluateExpression ⟨⟨[strTok l1 la, opTok o lo, strTok l2 lb]⟩, vars, out⟩
        = .ok (applyLowPrec o (stripQuotes l1) (stripQuotes l2)) ⟨⟨[]⟩, vars, out⟩ :=
    fun o ho => evaluateExpression_binary vars out (strTok l1 la) (opTok o lo) (strTok l2 lb)
      _ _ [] (isTerm_strTok vars l1 la) (isTerm_strTok vars l2 lb) rfl ho exprStops_nil
  have hhigh : ∀ o : Str, (o = ['/'] ∨ o = ['%']) →
      evaluateExpression ⟨⟨[strTok l1 la, opTok o lo, strTok l2 lb]⟩, vars, out⟩
        = .ok (applyHighPrec o (stripQuotes l1) (stripQuotes l2)) ⟨⟨[]⟩, vars, out⟩ := by
    intro o ho
    have h := evaluateExpression_expr vars out
      ⟨strTok l1 la, stripQuotes l1, [(opTok o lo, strTok l2 lb, stripQuotes l2)]⟩ [] []
      ⟨isTerm_strTok vars l1 la, by
        intro y hy
        simp only [List.mem_singleton] at hy
        subst hy
        exact ⟨rfl, by simpa [opTok] using ho, isTerm_strTok vars l2 lb⟩⟩
      (by intro x hx; cases hx) exprStops_nil
    simpa [Operand.tokens, Operand.result, exprTokens, chainTokens, opTok] using h
  have r1 := hRun l1 la symbols
  have r2 := hRun l2 lb symbols
  rw [hstr] at r1 r2
  simp only [ASTNode.token, strTok] at r1 r2
  simp only [List.mem_cons, List.mem_singleton, List.not_mem_nil, or_false] at hop
  rcases hop with h | h | h | h <;> subst h
  · refine ⟨_, ?_, hlow _ (Or.inl rfl)⟩
    simp [ASTNode.Run_Op, ASTNode.children, ASTNode.token, opTok, strTok, r1, r2, applyLowPrec]
  · refine ⟨_, ?_, hlow _ (Or.inr rfl)⟩
    simp only [ASTNode.Run_Op, ASTNode.children, ASTNode.token, opTok, strTok, r1, r2,
      applyLowPrec]
    cases find (stripQuotes l1) (stripQuotes l2) <;> simp
  · refine ⟨_, ?_, hhigh _ (Or.inl rfl)⟩
    simp only [ASTNode.Run_Op, ASTNode.children, ASTNode.token, opTok, strTok, r1, r2,
      applyHighPrec]
    cases find (stripQuotes l1) (stripQuotes l2) <;> simp
  · refine ⟨_, ?_, hhigh _ (Or.inr rfl)⟩
    simp only [ASTNode.Run_Op, ASTNode.children, ASTNode.token, opTok, strTok, r1, r2,
      applyHighPrec]
    cases find (stripQuotes l1) (stripQuotes l2) <;> simp

/-- C17 at `"abcabc" % "b"` with string nodes evaluated by `Run_String`: the
tree and the token stream both give `cabc`. -/
theorem C17_tree_matches_stream_witness :
    ∃ v,
      ASTNode.Run_Op (fun node s => .ok (node.Run_String, s))
          (.mk (opTok ['%'] 1)
            [.mk (strTok "\"abcabc\"".toList 1) [], .mk (strTok "\"b\"".toList 1) []])
          ⟨[]⟩
        = .ok (v, ⟨[]⟩)
      ∧ evaluateExpression
          ⟨⟨[strTok "\"abcabc\"".toList 1, opTok ['%'] 1, strTok "\"b\"".toList 1]⟩, [], []⟩
        = .ok v ⟨⟨[]⟩, [], []⟩ :=
  (C17_tree_matches_stream (fun node s => .ok (node.Run_String, s)) (fun _ _ _ => rfl)
    ['%'] "\"abcabc\"".toList "\"b\"".toList 1 1 1 ⟨[]⟩ [] [] (by decide)).2

/-- C18: for all strings `a` and `b`, the result of `a - b` is the result of
`a / b` followed by the result of `a % b`, for the operator code of the two
loops, and so for the values that the evaluator returns on string literals. -/
theorem C18_minus_is_div_then_mod (a b : Str) (l1 l2 l3 : Nat) (vars : StrMap Str)
    (out : List Str) :
    applyLowPrec ['-'] a b = applyHighPrec ['/'] a b ++ applyHighPrec ['%'] a b
    ∧ ∃ d m,
        evaluateHighPrec ⟨⟨[strTok a l1, opTok ['/'] l2, strTok b l3]⟩, vars, out⟩
          = .ok d ⟨⟨[]⟩, vars, out⟩
        ∧ evaluateHighPrec ⟨⟨[strTok a l1, opTok ['%'] l2, strTok b l3]⟩, vars, out⟩
          = .ok m ⟨⟨[]⟩, vars, out⟩
        ∧ evaluateExpression ⟨⟨[strTok a l1, opTok ['-'] l2, strTok b l3]⟩, vars, out⟩
          = .ok (d ++ m) ⟨⟨[]⟩, vars, out⟩ := by
  have hop : ∀ x y : Str,
      applyLowPrec ['-'] x y = applyHighPrec ['/'] x y ++ applyHighPrec ['%'] x y := by
    intro x y
    simp only [applyLowPrec, applyHighPrec]
    cases find x y <;> simp
  refine ⟨hop a b, _, _,
    evaluateHighPrec_binary vars out (strTok a l1) (opTok ['/'] l2) (strTok b l3) _ _ []
      (isTerm_strTok vars a l1) (isTerm_strTok vars b l3) rfl (Or.inl rfl)
      (highPrecStops_of_exprStops [] exprStops_nil),
    evaluateHighPrec_binary vars out (strTok a l1) (opTok ['%'] l2) (strTok b l3) _ _ []
      (isTerm_strTok vars a l1) (isTerm_strTok vars b l3) rfl (Or.inr rfl)
      (highPrecStops_of_exprStops [] exprStops_nil), ?_⟩
  rw [evaluateExpression_binary vars out (strTok a l1) (opTok ['-'] l2) (strTok b l3) _ _ []
    (isTerm_strTok vars a l1) (isTerm_strTok vars b l3) rfl (Or.inr rfl) exprStops_nil]
  simp only [opTok]
  rw [hop]

/-- C19: a token that follows a well-formed expression and whose lexeme is
neither `+`, `-`, `/`, `%` nor one of the reserved lexemes, in particular an
operator token such as `(`, `)`, `{` or `}`, ends the expression without an
error: `evaluateExpression` returns the value computed so
far and leaves the operator unconsumed, and `handlePrintStatement` writes that
value. On `PRINT "a" (` the line `a` is written and then the top-level loop
stops with the UnexpectedToken error for `(`. -/
theorem C19_other_operator_ends_expression (vars : StrMap Str) (out : List Str) (o0 : Operand)
    (c : List (Token × Operand)) (op : Token) (post : List Token) (kwLine : Nat)
    (h0 : IsOperand vars o0) (hc : IsExpr vars c)
    (hlex : op.lexeme ∉ [['+'], ['-'], ['/'], ['%']])
    (hres : op.lexeme ∉ [['='], ['=', '='], ['!', '='], ['<'], ['<', '='], ['>'], ['>', '='],
      ['?'], ['!']]) :
    evaluateExpression ⟨⟨o0.tokens ++ (exprTokens c ++ op :: post)⟩, vars, out⟩
        = .ok (c.foldl (fun r x => applyLowPrec x.1.lexeme r x.2.result) o0.result)
            ⟨⟨op :: post⟩, vars, out⟩
    ∧ handlePrintStatement
          ⟨⟨kwTok "PRINT".toList kwLine :: (o0.tokens ++ (exprTokens c ++ op :: post))⟩, vars, out⟩
        = .ok () ⟨⟨op :: post⟩, vars,
            out ++ [c.foldl (fun r x => applyLowPrec x.1.lexeme r x.2.result) o0.result]⟩
    ∧ interpret [kwTok "PRINT".toList 1, strTok "\"a\"".toList 1, opTok ['('] 1]
        = .error (.UnexpectedToken 1 ['(']) ⟨⟨[opTok ['('] 1]⟩, [], ["a".toList]⟩ := by
  have hstops : exprStops (op :: post) := by
    intro t ht
    simp only [List.head?_cons, Option.mem_def, Option.some.injEq] at ht
    subst ht
    rintro ⟨-, h1 | h1⟩
    · apply hlex
      simp only [List.mem_cons, List.mem_singleton, List.not_mem_nil, or_false] at h1 ⊢
      rcases h1 with h1 | h1 | h1 | h1 <;> simp [h1]
    · exact hres h1
  have hexpr := evaluateExpression_expr vars out o0 c (op :: post) h0 hc hstops
  refine ⟨hexpr, ?_, by decide⟩
  simp [handlePrintStatement, UseKind, Lexer.Peek, Lexer.Use, kwTok, hexpr]

/-- C19 at `"a" + "b" (`: the value `ab` is returned and `(` is left. -/
theorem C19_other_operator_witness :
    evaluateExpression
        ⟨⟨[strTok "\"a\"".toList 1, opTok ['+'] 1, strTok "\"b\"".toList 1, opTok ['('] 1]⟩,
          [], []⟩
      = .ok "ab".toList ⟨⟨[opTok ['('] 1]⟩, [], []⟩ :=
  (C19_other_operator_ends_expression [] [] ⟨strTok "\"a\"".toList 1, "a".toList, []⟩
    [(opTok ['+'] 1, ⟨strTok "\"b\"".toList 1, "b".toList, []⟩)] (opTok ['('] 1) [] 1
    ⟨by decide, isChain_nil [] _⟩
    (by
      intro x hx
      simp only [List.mem_singleton] at hx
      subst hx
      exact ⟨rfl, Or.inl rfl, by decide, isChain_nil [] _⟩)
    (by decide) (by decide)).1

/-- C20: with a file name on the command line, `main` runs the tokens of the
file when the name does not contain `test-`; when it does, and `p` is the first
occurrence, `main` runs them iff the (up to) two characters after `test-` are
one of 00, 01, 02, 03, 04, 11, 12, 13, 14, 15, 16, 17, 18, 19, 20, 21, and
otherwise writes the one line `Unsupported test case` and exits with status 1
before any token is read. -/
theorem C20_file_name_gate (argv0 filename : Str) (tokens : List Token) :
    allowedTests = ["00".toList, "01".toList, "02".toList, "03".toList, "04".toList,
        "11".toList, "12".toList, "13".toList, "14".toList, "15".toList, "16".toList,
        "17".toList, "18".toList, "19".toList, "20".toList, "21".toList]
    ∧ (∀ p, FirstOccurrence filename "test-".toList p →
        (main [argv0, filename] tokens = interpret tokens
            ↔ (filename.drop (p + 5)).take 2 ∈ allowedTests)
        ∧ ((filename.drop (p + 5)).take 2 ∉ allowedTests →
            main [argv0, filename] tokens
              = .error .UnsupportedTestCase ⟨⟨[]⟩, [], ["Unsupported test case".toList]⟩))
    ∧ ((∀ q, ¬ OccursAt filename "test-".toList q) →
        main [argv0, filename] tokens = interpret tokens) := by
  refine ⟨by decide, fun p hp => ?_, fun hq => ?_⟩
  · have hf : find filename ['t', 'e', 's', 't', '-'] = some p :=
      (find_eq_some_iff filename _ p).2 hp
    have hin : (filename.drop (p + 5)).take 2 ∈ allowedTests →
        main [argv0, filename] tokens = interpret tokens := by
      intro hin
      simp [main, hf, substr, hin]
    have hout : (filename.drop (p + 5)).take 2 ∉ allowedTests →
        main [argv0, filename] tokens
          = .error .UnsupportedTestCase ⟨⟨[]⟩, [], ["Unsupported test case".toList]⟩ := by
      intro hout
      simp [main, hf, substr, hout]
    refine ⟨⟨fun hrun => ?_, hin⟩, hout⟩
    by_contra hnot
    rw [hout hnot] at hrun
    exact interpret_ne_gate tokens _ hrun.symm
  · have hf : find filename ['t', 'e', 's', 't', '-'] = none :=
      (find_eq_none_iff filename _).2 hq
    simp [main, hf]

/-- C20 at the file names `tests/test-05.txt` (stopped by the gate) and
`tests/test-12.txt` (run). -/
theorem C20_file_name_gate_witness :
    main ["./Project2".toList, "tests/test-05.txt".toList] [kwTok "PRINT".toList 1, strTok "\"a\"".toList 1]
        = .error .UnsupportedTestCase ⟨⟨[]⟩, [], ["Unsupported test case".toList]⟩
    ∧ main ["./Project2".toList, "tests/test-12.txt".toList] [kwTok "PRINT".toList 1, strTok "\"a\"".toList 1]
        = interpret [kwTok "PRINT".toList 1, strTok "\"a\"".toList 1] :=
  ⟨((C20_file_name_gate "./Project2".toList "tests/test-05.txt".toList
      [kwTok "PRINT".toList 1, strTok "\"a\"".toList 1]).2.1 6 (by decide)).2 (by decide),
    ((C20_file_name_gate "./Project2".toList "tests/test-12.txt".toList
      [kwTok "PRINT".toList 1, strTok "\"a\"".toList 1]).2.1 6 (by decide)).1.2 (by decide)⟩

end Project2
